import Mathlib

/-!
Shallow embedding of the reminder-scheduling subsystem of the
Habit_TrackerBot repository.

The embedding translates, from the Python source:
  * `src/database/queries/reminder_queries.py` (the ReminderStore
    operations cited by the claims),
  * `src/database/db_manager.py` (the variants of the same operations
    that `src/database/__init__.py` actually exports to the handlers
    and to the scheduler),
  * `src/database/connection.py` (the global-connection error behaviour:
    `get_db_connection` raises `ConnectionError` when the global `_db`
    is `None`; `execute_query` / `fetch_one` / `fetch_all` re-raise
    `aiosqlite.Error`),
  * `src/scheduling/reminder_scheduler.py` (`_jname`, `_rm_job_by_name`,
    `sched_all_rems`, `rm_rem_job_by_hid`),
  * `src/handlers/reminders/jobs.py` (`rem_cb`),
  * the `Reminders` schema of `initialize_database`
    (`habit_id UNIQUE NOT NULL`, `job_name UNIQUE NOT NULL`, FOREIGN KEYs
    to `Habits` and `Users` with `PRAGMA foreign_keys = ON`).

Machine integers are modelled as `Nat` (Telegram user ids and SQLite
AUTOINCREMENT habit ids are nonnegative), database tables as lists of
rows, the telegram `JobQueue` as a list of registered jobs, and the
Python exceptions that can cross a function boundary as `Except`.
-/

/-! ### Decimal rendering of naturals, modelling Python str(int) -/

/-- Digits of `n` in base 10, most significant first; structural fuel
recursion (`fuel > n` suffices).  Models the decimal rendering that a
Python f-string applies to a nonnegative `int`. -/
def natCharsAux : Nat → Nat → List Char
  | 0, _ => []
  | _ + 1, 0 => []
  | fuel + 1, n + 1 =>
    natCharsAux fuel ((n + 1) / 10) ++ [Nat.digitChar ((n + 1) % 10)]

/-- Python `str(n)` for a nonnegative integer `n`. -/
def natStr (n : Nat) : String :=
  if n = 0 then "0" else String.mk (natCharsAux (n + 1) n)

/-- Value of a most-significant-first digit string. -/
def decVal (cs : List Char) : Nat :=
  cs.foldl (fun a c => 10 * a + (c.toNat - 48)) 0

theorem digitChar_toNat : ∀ d : Nat, d < 10 → (Nat.digitChar d).toNat - 48 = d := by
  decide

theorem digitChar_isDigit : ∀ d : Nat, d < 10 → (Nat.digitChar d).isDigit = true := by
  decide

theorem natCharsAux_foldl : ∀ (fuel n acc : Nat), n < fuel →
    (natCharsAux fuel n).foldl (fun a c => 10 * a + (c.toNat - 48)) acc
      = acc * 10 ^ (natCharsAux fuel n).length + n := by
  intro fuel
  induction fuel with
  | zero => intro n acc h; omega
  | succ fuel ih =>
    intro n acc h
    match n with
    | 0 => simp [natCharsAux]
    | m + 1 =>
      have hdiv : (m + 1) / 10 < fuel := by
        have h1 : (m + 1) / 10 < m + 1 := Nat.div_lt_self (Nat.succ_pos m) (by omega)
        omega
      rw [natCharsAux]
      rw [List.foldl_append]
      rw [ih ((m + 1) / 10) acc hdiv]
      simp only [List.foldl_cons, List.foldl_nil, List.length_append, List.length_cons,
        List.length_nil]
      rw [digitChar_toNat ((m + 1) % 10) (Nat.mod_lt _ (by omega))]
      have hdm : 10 * ((m + 1) / 10) + (m + 1) % 10 = m + 1 := Nat.div_add_mod (m + 1) 10
      rw [pow_succ]
      ring_nf
      omega

theorem decVal_natStr (n : Nat) : decVal (natStr n).data = n := by
  by_cases h : n = 0
  · subst h; decide
  · unfold natStr decVal
    rw [if_neg h]
    show List.foldl (fun a c => 10 * a + (c.toNat - 48)) 0 (natCharsAux (n + 1) n) = n
    rw [natCharsAux_foldl (n + 1) n 0 (Nat.lt_succ_self n)]
    simp

theorem natStr_inj {a b : Nat} (h : natStr a = natStr b) : a = b := by
  have h2 := congrArg (fun s => decVal s.data) h
  simpa [decVal_natStr] using h2

theorem natCharsAux_digits : ∀ (fuel n : Nat), ∀ c ∈ natCharsAux fuel n, c.isDigit = true := by
  intro fuel
  induction fuel with
  | zero => intro n c hc; simp [natCharsAux] at hc
  | succ fuel ih =>
    intro n c hc
    match n with
    | 0 => simp [natCharsAux] at hc
    | m + 1 =>
      rw [natCharsAux] at hc
      rcases List.mem_append.mp hc with h1 | h1
      · exact ih _ c h1
      · simp only [List.mem_singleton] at h1
        subst h1
        exact digitChar_isDigit _ (Nat.mod_lt _ (by omega))

theorem natStr_digits : ∀ (n : Nat), ∀ c ∈ (natStr n).data, c.isDigit = true := by
  intro n c hc
  by_cases h : n = 0
  · subst h; simp [natStr] at hc; subst hc; decide
  · unfold natStr at hc
    rw [if_neg h] at hc
    exact natCharsAux_digits _ _ c hc

theorem natStr_no_underscore (n : Nat) : ∀ c ∈ (natStr n).data, c ≠ '_' := by
  intro c hc he
  have := natStr_digits n c hc
  subst he
  simp [Char.isDigit] at this

theorem natStr_no_colon (n : Nat) : ∀ c ∈ (natStr n).data, c ≠ ':' := by
  intro c hc he
  have := natStr_digits n c hc
  subst he
  simp [Char.isDigit] at this

/-! ### Wall-clock time, modelling datetime.time and its
strftime / strptime round trip through TEXT reminder_time columns -/

/-- `datetime.time`: hour, minute, second (microseconds are never used by
the source's reminder paths). -/
structure PTime where
  hour : Nat
  minute : Nat
  second : Nat
deriving DecidableEq, Repr

/-- The range constraint `datetime.time` enforces at construction. -/
def PTime.valid (t : PTime) : Bool :=
  decide (t.hour < 24) && decide (t.minute < 60) && decide (t.second < 60)

/-- `%02d` zero-padding of a field value (all uses have `n ≤ 59`). -/
def pad2 (n : Nat) : List Char :=
  if n < 10 then ['0', Nat.digitChar n]
  else [Nat.digitChar (n / 10), Nat.digitChar (n % 10)]

/-- `t.strftime('%H:%M:%S')` from `add_or_update_reminder_db`. -/
def timeToStr (t : PTime) : String :=
  String.mk (pad2 t.hour ++ (':' :: (pad2 t.minute ++ (':' :: pad2 t.second))))

/-- Split a character list on `':'` (the separators of the
`'%H:%M:%S'` format). -/
def splitCo : List Char → List (List Char)
  | [] => [[]]
  | c :: rest =>
    if c = ':' then [] :: splitCo rest
    else
      match splitCo rest with
      | [] => [[c]]
      | g :: gs => (c :: g) :: gs

/-- One `%H` / `%M` / `%S` field: one or two decimal digits
(CPython's `_strptime` regexes accept one- or two-digit fields). -/
def parse2 : List Char → Option Nat
  | [c] => if c.isDigit then some (c.toNat - 48) else none
  | [c1, c2] =>
    if c1.isDigit && c2.isDigit then some (10 * (c1.toNat - 48) + (c2.toNat - 48))
    else none
  | _ => none

/-- `datetime.strptime(ts, '%H:%M:%S').time()`, `none` when the call
raises `ValueError`/`TypeError` (malformed text, or a field out of the
range `datetime.time` accepts). -/
def parseTimeStr (s : String) : Option PTime :=
  match splitCo s.data with
  | [a, b, c] =>
    match parse2 a, parse2 b, parse2 c with
    | some h, some m, some sec =>
      if h < 24 && m < 60 && sec < 60 then some ⟨h, m, sec⟩ else none
    | _, _, _ => none
  | _ => none

theorem splitCo_ne_nil (cs : List Char) : splitCo cs ≠ [] := by
  match cs with
  | [] => simp [splitCo]
  | c :: rest =>
    rw [splitCo]
    by_cases h : c = ':'
    · simp [h]
    · rw [if_neg h]
      match splitCo rest with
      | [] => simp
      | g :: gs => simp

theorem splitCo_append (xs ys : List Char) (hx : ∀ c ∈ xs, c ≠ ':') :
    splitCo (xs ++ ':' :: ys) = xs :: splitCo ys := by
  induction xs with
  | nil => simp [splitCo]
  | cons x xs ih =>
    have hx0 : x ≠ ':' := hx x (List.mem_cons_self x xs)
    have hrest : ∀ c ∈ xs, c ≠ ':' := fun c hc => hx c (List.mem_cons_of_mem x hc)
    rw [List.cons_append, splitCo, if_neg hx0, ih hrest]

theorem parse2_pad2 : ∀ n : Nat, n < 60 → parse2 (pad2 n) = some n := by
  decide

theorem pad2_no_colon : ∀ n : Nat, n < 60 → ∀ c ∈ pad2 n, c ≠ ':' := by
  decide

theorem splitCo_nocolon (xs : List Char) (hx : ∀ c ∈ xs, c ≠ ':') :
    splitCo xs = [xs] := by
  induction xs with
  | nil => simp [splitCo]
  | cons x xs ih =>
    have hx0 : x ≠ ':' := hx x (List.mem_cons_self x xs)
    have hrest : ∀ c ∈ xs, c ≠ ':' := fun c hc => hx c (List.mem_cons_of_mem x hc)
    rw [splitCo, if_neg hx0, ih hrest]

theorem ptime_valid_bounds (t : PTime) (h : t.valid = true) :
    t.hour < 24 ∧ t.minute < 60 ∧ t.second < 60 := by
  unfold PTime.valid at h
  simp only [Bool.and_eq_true, decide_eq_true_eq] at h
  exact ⟨h.1.1, h.1.2, h.2⟩

theorem parseTimeStr_timeToStr (t : PTime) (h : t.valid = true) :
    parseTimeStr (timeToStr t) = some t := by
  obtain ⟨hh, hm, hs⟩ := ptime_valid_bounds t h
  have hsplit : splitCo (pad2 t.hour ++ (':' :: (pad2 t.minute ++ (':' :: pad2 t.second))))
      = [pad2 t.hour, pad2 t.minute, pad2 t.second] := by
    rw [splitCo_append _ _ (pad2_no_colon t.hour (by omega)),
      splitCo_append _ _ (pad2_no_colon t.minute hm),
      splitCo_nocolon _ (pad2_no_colon t.second hs)]
  show parseTimeStr (String.mk (pad2 t.hour ++ (':' :: (pad2 t.minute ++ (':' :: pad2 t.second)))))
      = some t
  unfold parseTimeStr
  simp only [hsplit]
  rw [parse2_pad2 t.hour (by omega), parse2_pad2 t.minute hm, parse2_pad2 t.second hs]
  simp [hh, hm, hs]

/-! ### Deterministic job identity (`_jname`, `utils/constants.py`) -/

/-- `JOB_PREFIX_REMINDER = "reminder_"` from `src/utils/constants.py`. -/
def JOB_PREFIX_REMINDER : String := "reminder_"

/-- `_jname(uid, hid) = f"{c.JOB_PREFIX_REMINDER}{uid}_{hid}"` from
`src/scheduling/reminder_scheduler.py`. -/
def _jname (uid hid : Nat) : String :=
  JOB_PREFIX_REMINDER ++ natStr uid ++ "_" ++ natStr hid

theorem underscore_split_inj (a : List Char) :
    ∀ (c b d : List Char), (∀ x ∈ a, x ≠ '_') → (∀ x ∈ c, x ≠ '_') →
    a ++ '_' :: b = c ++ '_' :: d → a = c ∧ b = d := by
  induction a with
  | nil =>
    intro c b d _ hc h
    match c with
    | [] => simpa using h
    | y :: c2 =>
      simp only [List.nil_append, List.cons_append, List.cons.injEq] at h
      exact absurd h.1.symm (hc y (List.mem_cons_self y c2))
  | cons x a2 ih =>
    intro c b d ha hc h
    match c with
    | [] =>
      simp only [List.cons_append, List.nil_append, List.cons.injEq] at h
      exact absurd h.1 (ha x (List.mem_cons_self x a2))
    | y :: c2 =>
      simp only [List.cons_append, List.cons.injEq] at h
      have ha2 : ∀ z ∈ a2, z ≠ '_' := fun z hz => ha z (List.mem_cons_of_mem x hz)
      have hc2 : ∀ z ∈ c2, z ≠ '_' := fun z hz => hc z (List.mem_cons_of_mem y hz)
      obtain ⟨h1, h2⟩ := ih c2 b d ha2 hc2 h.2
      exact ⟨by rw [h.1, h1], h2⟩

theorem natStr_data_inj {a b : Nat} (h : (natStr a).data = (natStr b).data) : a = b := by
  have h2 := congrArg decVal h
  simpa [decVal_natStr] using h2

theorem jname_inj {u1 h1 u2 h2 : Nat} (h : _jname u1 h1 = _jname u2 h2) :
    u1 = u2 ∧ h1 = h2 := by
  have hd := congrArg String.data h
  simp only [_jname, JOB_PREFIX_REMINDER, String.data_append] at hd
  simp only [List.cons_append, List.nil_append, List.cons.injEq, true_and] at hd
  have hd2 : (natStr u1).data ++ '_' :: (natStr h1).data
      = (natStr u2).data ++ '_' :: (natStr h2).data := by
    simpa [List.append_assoc, List.singleton_append] using hd
  obtain ⟨e1, e2⟩ := underscore_split_inj (natStr u1).data (natStr u2).data
    (natStr h1).data (natStr h2).data (natStr_no_underscore u1) (natStr_no_underscore u2) hd2
  exact ⟨natStr_data_inj e1, natStr_data_inj e2⟩

/-! ### The relational store
(schema from `initialize_database` in `src/database/connection.py`) -/

/-- A row of the `Habits` table (columns the reminder subsystem reads). -/
structure HabitRow where
  habit_id : Nat
  user_id : Nat
  name : String
deriving DecidableEq

/-- A row of the `Reminders` table:
`reminder_id PK AUTOINCREMENT, habit_id UNIQUE NOT NULL, user_id NOT NULL,
reminder_time TEXT NOT NULL, job_name TEXT UNIQUE NOT NULL`. -/
structure ReminderRow where
  reminder_id : Nat
  habit_id : Nat
  user_id : Nat
  reminder_time : String
  job_name : String
deriving DecidableEq

/-- Database state: the three tables the subsystem touches plus the
AUTOINCREMENT counter of `Reminders`. -/
structure DB where
  users : List Nat
  habits : List HabitRow
  reminders : List ReminderRow
  next_rid : Nat
deriving DecidableEq

/-- The `UNIQUE` constraint on `Reminders.habit_id`: table states reachable
through the schema have pairwise distinct habit ids. -/
def uniqueHids (db : DB) : Prop :=
  (db.reminders.map fun r => r.habit_id).Nodup

/-- A Python exception escaping one of the embedded functions:
`ConnectionError` from `get_db_connection` (`src/database/connection.py`,
raised when the global `_db` is `None`), or `aiosqlite.IntegrityError`
re-raised by `execute_query`. -/
inductive PyErr where
  | connectionError
  | integrityError
deriving DecidableEq

/-- `SELECT name FROM Habits WHERE habit_id = ?` with `fetchone`
(`get_habit_name_by_id`, `src/database/db_manager.py`; identical in
`queries/habit_queries.py`). -/
def getHabitNameDB (db : DB) (hid : Nat) : Option String :=
  (db.habits.find? fun h => h.habit_id == hid).map fun h => h.name

/-- `INSERT OR IGNORE INTO Users (user_id) VALUES (?)`
(`add_user_if_not_exists`, state effect only; its `bool` result is
ignored by every reminder-path caller). -/
def add_user_if_not_exists (db : DB) (uid : Nat) : DB :=
  if uid ∈ db.users then db else { db with users := db.users ++ [uid] }

/-- Semantics of the statement
`INSERT INTO Reminders (user_id,habit_id,reminder_time,job_name)
VALUES (?,?,?,?) ON CONFLICT(habit_id) DO UPDATE SET
reminder_time=excluded.reminder_time, job_name=excluded.job_name,
user_id=excluded.user_id`
under `PRAGMA foreign_keys = ON` and the schema's UNIQUE constraints.
On the conflict path the single row with the given `habit_id` is
updated; the update fails with `IntegrityError` if it would duplicate
another row's `job_name` or if `user_id` breaks the `Users` FK.  On the
insert path the FK checks on `Habits` and `Users` and the `job_name`
UNIQUE constraint apply.  Errors roll the statement back. -/
def upsertSQL (db : DB) (uid hid : Nat) (ts jname : String) : Except PyErr DB :=
  match db.reminders.find? (fun r => r.habit_id == hid) with
  | some _ =>
    if db.reminders.any (fun r => r.job_name == jname && !(r.habit_id == hid))
        || !(db.users.contains uid) then
      .error .integrityError
    else
      .ok { db with reminders := db.reminders.map fun r =>
        if r.habit_id == hid then
          { r with user_id := uid, reminder_time := ts, job_name := jname }
        else r }
  | none =>
    if !(db.habits.any fun h => h.habit_id == hid) || !(db.users.contains uid)
        || db.reminders.any (fun r => r.job_name == jname) then
      .error .integrityError
    else
      .ok { db with
        reminders := db.reminders ++ [⟨db.next_rid, hid, uid, ts, jname⟩],
        next_rid := db.next_rid + 1 }

/-- `add_or_update_reminder_db` from
`src/database/queries/reminder_queries.py` (the version the claims cite;
`DatabaseService.add_or_update_reminder` in `service.py` is identical).
It ensures the user row exists, runs the upsert, catches
`aiosqlite.IntegrityError` / `aiosqlite.Error` as `False`, and performs
no ownership check of `habit_id` against `user_id`.  A `None` connection
makes `get_db_connection` raise `ConnectionError`, which no handler in
this function catches. -/
def add_or_update_reminder_db (conn : Option DB) (uid hid : Nat)
    (rem_time : PTime) (jname : String) : Except PyErr (Bool × DB) :=
  match conn with
  | none => .error .connectionError
  | some db =>
    let db1 := add_user_if_not_exists db uid
    match upsertSQL db1 uid hid (timeToStr rem_time) jname with
    | .ok db2 => .ok (true, db2)
    | .error _ => .ok (false, db1)

/-- `add_or_update_reminder_db` from `src/database/db_manager.py` — the
implementation `database/__init__.py` actually exports to the handlers.
Unlike the `queries/` copy it first runs
`SELECT 1 FROM Habits WHERE habit_id = ? AND user_id = ?` and returns
`False` without touching `Reminders` when the habit is missing or owned
by another user. -/
def dbm_add_or_update_reminder_db (conn : Option DB) (uid hid : Nat)
    (rem_time : PTime) (jname : String) : Except PyErr (Bool × DB) :=
  match conn with
  | none => .error .connectionError
  | some db =>
    let db1 := add_user_if_not_exists db uid
    if db1.habits.any (fun h => h.habit_id == hid && h.user_id == uid) then
      match upsertSQL db1 uid hid (timeToStr rem_time) jname with
      | .ok db2 => .ok (true, db2)
      | .error _ => .ok (false, db1)
    else .ok (false, db1)

/-- Pure core of `get_reminder_by_habit_id`
(`queries/reminder_queries.py`): `SELECT user_id, reminder_time,
job_name FROM Reminders WHERE habit_id = ?`, `fetchone`, then
`strptime`; a malformed stored time is reported as `None`. -/
def getReminderDB (db : DB) (hid : Nat) : Option (Nat × PTime × String) :=
  match db.reminders.find? (fun r => r.habit_id == hid) with
  | none => none
  | some r =>
    match parseTimeStr r.reminder_time with
    | some t => some (r.user_id, t, r.job_name)
    | none => none

/-- `get_reminder_by_habit_id` with the connection boundary. -/
def get_reminder_by_habit_id (conn : Option DB) (hid : Nat) :
    Except PyErr (Option (Nat × PTime × String)) :=
  match conn with
  | none => .error .connectionError
  | some db => .ok (getReminderDB db hid)

/-- Pure core of `get_all_reminders`: every stored row whose
`reminder_time` parses, as `(user_id, habit_id, time, job_name)`; rows
with malformed times are skipped with a warning.  (The `queries/` copy
adds `ORDER BY user_id, reminder_time` — a permutation of the same
rows; the `db_manager.py` copy used by `sched_all_rems` reads them in
table order as modelled here.) -/
def getAllRemindersDB (db : DB) : List (Nat × Nat × PTime × String) :=
  db.reminders.filterMap fun r =>
    (parseTimeStr r.reminder_time).map fun t => (r.user_id, r.habit_id, t, r.job_name)

/-- `get_all_reminders` with the connection boundary. -/
def get_all_reminders (conn : Option DB) :
    Except PyErr (List (Nat × Nat × PTime × String)) :=
  match conn with
  | none => .error .connectionError
  | some db => .ok (getAllRemindersDB db)

/-- Pure core of `remove_reminder_by_habit_id`
(`queries/reminder_queries.py`): fetch through `get_reminder_by_habit_id`
(so a row whose time no longer parses is treated as absent), then
`DELETE FROM Reminders WHERE habit_id = ?` and return the `job_name`. -/
def removeReminderDB (db : DB) (hid : Nat) : Option String × DB :=
  match getReminderDB db hid with
  | none => (none, db)
  | some (_, _, jname) =>
    (some jname, { db with reminders := db.reminders.filter fun r => !(r.habit_id == hid) })

/-- `remove_reminder_by_habit_id` with the connection boundary. -/
def remove_reminder_by_habit_id (conn : Option DB) (hid : Nat) :
    Except PyErr (Option String × DB) :=
  match conn with
  | none => .error .connectionError
  | some db => .ok (removeReminderDB db hid)

/-- `remove_reminder_by_habit_id` from `src/database/db_manager.py` (the
copy `sched_all_rems` and `rm_rem_job_by_hid` import): it reads only
`job_name` (no time parse) before deleting. -/
def dbm_removeReminderDB (db : DB) (hid : Nat) : Option String × DB :=
  match db.reminders.find? (fun r => r.habit_id == hid) with
  | none => (none, db)
  | some r =>
    (some r.job_name, { db with reminders := db.reminders.filter fun r2 => !(r2.habit_id == hid) })

/-- Pure core of `get_user_reminders`: rows of one user whose time
parses, as `(habit_id, time, job_name)`. -/
def getUserRemindersDB (db : DB) (uid : Nat) : List (Nat × PTime × String) :=
  db.reminders.filterMap fun r =>
    if r.user_id == uid then
      (parseTimeStr r.reminder_time).map fun t => (r.habit_id, t, r.job_name)
    else none

/-- `get_user_reminders` with the connection boundary. -/
def get_user_reminders (conn : Option DB) (uid : Nat) :
    Except PyErr (List (Nat × PTime × String)) :=
  match conn with
  | none => .error .connectionError
  | some db => .ok (getUserRemindersDB db uid)

/-! ### The in-process JobQueue
(`telegram.ext.JobQueue`, as used by `src/scheduling/reminder_scheduler.py`) -/

/-- A registered daily trigger: `jq.run_daily(callback=rem_cb, time=...,
chat_id=uid, user_id=uid, name=..., data={"user_id": uid, "habit_id":
hid, "habit_name": hname})` (the source always passes `chat_id =
user_id`, so one field carries both). -/
structure Job where
  name : String
  time : PTime
  user_id : Nat
  habit_id : Nat
  habit_name : String
deriving DecidableEq

/-- `_rm_job_by_name(jq, name)`: `get_jobs_by_name` then
`schedule_removal` on each; returns whether anything was removed. -/
def _rm_job_by_name (jq : List Job) (name : String) : Bool × List Job :=
  if jq.any (fun j => j.name == name) then
    (true, jq.filter fun j => !(j.name == name))
  else (false, jq)

/-- `jq.run_daily(...)`: registers a fresh daily trigger.  The reminder
times that reach it come from `datetime.time` values, for which
registration succeeds and returns the job. -/
def run_daily (jq : List Job) (name : String) (t : PTime) (uid hid : Nat)
    (hname : String) : List Job :=
  jq ++ [⟨name, t, uid, hid, hname⟩]

/-! ### Startup reconciliation (`sched_all_rems`) -/

/-- Counters and state threaded through the sweep of `sched_all_rems`.
`n_skip_time` is declared by the source and never incremented. -/
structure SweepState where
  db : DB
  jq : List Job
  n_sched : Nat
  n_skip_del : Nat
  n_skip_time : Nat
  n_fail : Nat
deriving DecidableEq

/-- The body of the `for uid,hid,rem_time,stored_jname in all_rems` loop
of `sched_all_rems`.  Orphan branch: count, delete the row
(`remove_reminder_by_habit_id`, the `db_manager` binding), cancel the
expected name, cancel the stored name when truthy and different, and
continue.  Valid branch: cancel the expected name, cancel the stored
name when truthy and different, and `run_daily` a fresh job carrying
the habit name.  With a live connection the per-row
`aiosqlite.Error`/`ConnectionError` handlers and the `run_daily = None`
branch are unreachable, so `n_fail` stays untouched. -/
def schedStep (st : SweepState) (rem : Nat × Nat × PTime × String) : SweepState :=
  let uid := rem.1
  let hid := rem.2.1
  let rem_time := rem.2.2.1
  let stored_jname := rem.2.2.2
  let expected_jname := _jname uid hid
  match getHabitNameDB st.db hid with
  | none =>
    let db1 := (dbm_removeReminderDB st.db hid).2
    let jq1 := (_rm_job_by_name st.jq expected_jname).2
    let jq2 :=
      if stored_jname != "" && stored_jname != expected_jname then
        (_rm_job_by_name jq1 stored_jname).2
      else jq1
    { st with db := db1, jq := jq2, n_skip_del := st.n_skip_del + 1 }
  | some hname =>
    let jq1 := (_rm_job_by_name st.jq expected_jname).2
    let jq2 :=
      if stored_jname != "" && stored_jname != expected_jname then
        (_rm_job_by_name jq1 stored_jname).2
      else jq1
    let jq3 := run_daily jq2 expected_jname rem_time uid hid hname
    { st with jq := jq3, n_sched := st.n_sched + 1 }

/-- `sched_all_rems(db_conn, jq)` run against a live connection: loads
the `get_all_reminders` snapshot, returns immediately when it is empty,
otherwise folds the loop body over it. -/
def sched_all_rems (db : DB) (jq : List Job) : SweepState :=
  let all_rems := getAllRemindersDB db
  if all_rems.isEmpty then ⟨db, jq, 0, 0, 0, 0⟩
  else all_rems.foldl schedStep ⟨db, jq, 0, 0, 0, 0⟩

/-- `rm_rem_job_by_hid(hid, jq)`: delete the stored row first
(`db_manager`'s `remove_reminder_by_habit_id`); when a truthy job name
came back, also remove the queue jobs registered under it.  Returns
whether a store row was found and removed. -/
def rm_rem_job_by_hid (db : DB) (jq : List Job) (hid : Nat) :
    Bool × DB × List Job :=
  match dbm_removeReminderDB db hid with
  | (some jname, db1) =>
    if jname != "" then (true, db1, (_rm_job_by_name jq jname).2)
    else (false, db1, jq)
  | (none, db1) => (false, db1, jq)

/-! ### The delivery callback (`rem_cb`, `src/handlers/reminders/jobs.py`) -/

/-- Outcome of `ctx.bot.send_message(chat_id=uid, text=...)`:
`Forbidden` (recipient blocked the bot) and `BadRequest` (invalid
recipient/chat) are the permanent failures; any other raised exception
is the transient branch. -/
inductive SendOutcome where
  | success
  | forbidden
  | badRequest
  | otherError
deriving DecidableEq

/-- Python truthiness of `job.data.get("user_id") / ("habit_id")`:
a missing key or `0` is falsy. -/
def truthyNat : Option Nat → Bool
  | none => false
  | some n => n != 0

/-- Python truthiness of `job.data.get("habit_name")`: a missing key or
an empty string is falsy. -/
def truthyStr : Option String → Bool
  | none => false
  | some s => s != ""

/-- `rem_cb` with a live connection, given the job's data dict and the
send outcome.  Missing `uid`/`hid` remove by `hid` when it is truthy;
a falsy `habit_name` is re-fetched and a vanished habit removes the
reminder; `Forbidden` / `BadRequest` during the send remove the
reminder from store and queue; any other send error only logs. -/
def rem_cb (db : DB) (jq : List Job) (uid? hid? : Option Nat)
    (hname? : Option String) (outcome : SendOutcome) : DB × List Job :=
  if !truthyNat uid? || !truthyNat hid? then
    if truthyNat hid? then
      let r := rm_rem_job_by_hid db jq (hid?.getD 0)
      (r.2.1, r.2.2)
    else (db, jq)
  else
    let hid := hid?.getD 0
    match (if truthyStr hname? then hname? else getHabitNameDB db hid) with
    | none =>
      let r := rm_rem_job_by_hid db jq hid
      (r.2.1, r.2.2)
    | some _ =>
      match outcome with
      | .success => (db, jq)
      | .forbidden =>
        let r := rm_rem_job_by_hid db jq hid
        (r.2.1, r.2.2)
      | .badRequest =>
        let r := rm_rem_job_by_hid db jq hid
        (r.2.1, r.2.2)
      | .otherError => (db, jq)

/-- Normal-operation store invariant used by the reconciliation
theorems: no row's stored `job_name` equals the freshly computed
`_jname` of a *different* row.  Every row written by the source's
handlers satisfies the stronger `r.job_name = _jname r.user_id
r.habit_id`. -/
def nocross (db : DB) : Prop :=
  ∀ r ∈ db.reminders, ∀ r2 ∈ db.reminders,
    r.job_name = _jname r2.user_id r2.habit_id → r.habit_id = r2.habit_id

/-! ### Helper lemmas about the scheduler and store operations -/

/-- A `get_all_reminders` snapshot entry. -/
abbrev Rem := Nat × Nat × PTime × String

/-- Name lookup in the `Habits` table alone (the sweep never mutates
`Habits`, so this factors `getHabitNameDB` through a stable table). -/
def habitName (habits : List HabitRow) (hid : Nat) : Option String :=
  (habits.find? fun h => h.habit_id == hid).map fun h => h.name

theorem getHabitNameDB_eq (db : DB) (hid : Nat) :
    getHabitNameDB db hid = habitName db.habits hid := rfl

/-- The job names one loop iteration of `sched_all_rems` cancels for a
snapshot entry: the recomputed expected name always, and the stored
name when it is truthy and differs. -/
def remRemoves (rem : Rem) (n : String) : Bool :=
  n == _jname rem.1 rem.2.1
    || (rem.2.2.2 != "" && rem.2.2.2 != _jname rem.1 rem.2.1 && n == rem.2.2.2)

/-- Names cancelled by any entry of the snapshot. -/
def removedName (rems : List Rem) (n : String) : Bool :=
  rems.any fun rem => remRemoves rem n

/-- The job one sweep iteration registers for a non-orphan entry. -/
def expectedJob (habits : List HabitRow) (rem : Rem) : Option Job :=
  (habitName habits rem.2.1).map fun hn =>
    ⟨_jname rem.1 rem.2.1, rem.2.2.1, rem.1, rem.2.1, hn⟩

theorem rm_job_snd (jq : List Job) (n : String) :
    (_rm_job_by_name jq n).2 = jq.filter fun j => !(j.name == n) := by
  unfold _rm_job_by_name
  cases ha : jq.any (fun j => j.name == n) with
  | true => simp
  | false =>
    simp only [Bool.false_eq_true, if_false]
    symm
    apply List.filter_eq_self.mpr
    intro a hmem
    simp only [List.any_eq_false] at ha
    simpa using ha a hmem

theorem rm_job_absent (jq : List Job) (n : String) (h : ∀ j ∈ jq, j.name ≠ n) :
    _rm_job_by_name jq n = (false, jq) := by
  unfold _rm_job_by_name
  have ha : jq.any (fun j => j.name == n) = false := by
    simp only [List.any_eq_false]
    intro j hj
    simpa using h j hj
  rw [ha]
  simp

theorem dbm_remove_db_eq (db : DB) (hid : Nat) :
    (dbm_removeReminderDB db hid).2
      = { db with reminders := db.reminders.filter fun r => !(r.habit_id == hid) } := by
  unfold dbm_removeReminderDB
  cases hf : db.reminders.find? (fun r => r.habit_id == hid) with
  | some r => rfl
  | none =>
    have he : db.reminders.filter (fun r => !(r.habit_id == hid)) = db.reminders := by
      apply List.filter_eq_self.mpr
      intro a ha
      have := List.find?_eq_none.mp hf a ha
      simpa using this
    simp only [he]

theorem jq2_eq_filter (jq : List Job) (rem : Rem) :
    (if rem.2.2.2 != "" && rem.2.2.2 != _jname rem.1 rem.2.1 then
      (_rm_job_by_name (_rm_job_by_name jq (_jname rem.1 rem.2.1)).2 rem.2.2.2).2
    else (_rm_job_by_name jq (_jname rem.1 rem.2.1)).2)
      = jq.filter fun j => !(remRemoves rem j.name) := by
  by_cases hc : (rem.2.2.2 != "" && rem.2.2.2 != _jname rem.1 rem.2.1) = true
  · rw [if_pos hc]
    rw [rm_job_snd, rm_job_snd, List.filter_filter]
    apply List.filter_congr
    intro j _
    simp only [Bool.and_eq_true] at hc
    simp only [remRemoves, hc.1, hc.2, Bool.true_and]
    cases hx : j.name == _jname rem.1 rem.2.1 <;> cases hy : j.name == rem.2.2.2 <;> simp
  · rw [if_neg hc]
    rw [rm_job_snd]
    apply List.filter_congr
    intro j _
    simp only [Bool.and_eq_true, not_and] at hc
    simp only [remRemoves]
    by_cases h1 : rem.2.2.2 != ""
    · have h2 : (rem.2.2.2 != _jname rem.1 rem.2.1) = false := by
        cases hb : (rem.2.2.2 != _jname rem.1 rem.2.1) with
        | false => rfl
        | true => exact absurd hb (by simpa [h1] using hc)
      simp [h2]
    · simp only [Bool.not_eq_true] at h1
      simp [h1]

theorem schedStep_orphan (st : SweepState) (rem : Rem)
    (h : habitName st.db.habits rem.2.1 = none) :
    schedStep st rem = { st with
      db := { st.db with
        reminders := st.db.reminders.filter fun r => !(r.habit_id == rem.2.1) },
      jq := st.jq.filter fun j => !(remRemoves rem j.name),
      n_skip_del := st.n_skip_del + 1 } := by
  have h2 : getHabitNameDB st.db rem.2.1 = none := h
  unfold schedStep
  simp only [h2]
  rw [dbm_remove_db_eq]
  rw [jq2_eq_filter st.jq rem]

theorem schedStep_valid (st : SweepState) (rem : Rem) (hn : String)
    (h : habitName st.db.habits rem.2.1 = some hn) :
    schedStep st rem = { st with
      jq := (st.jq.filter fun j => !(remRemoves rem j.name))
        ++ [⟨_jname rem.1 rem.2.1, rem.2.2.1, rem.1, rem.2.1, hn⟩],
      n_sched := st.n_sched + 1 } := by
  have h2 : getHabitNameDB st.db rem.2.1 = some hn := h
  unfold schedStep
  simp only [h2]
  rw [jq2_eq_filter st.jq rem]
  rfl

theorem removedName_cons (rem : Rem) (rest : List Rem) (n : String) :
    removedName (rem :: rest) n = (remRemoves rem n || removedName rest n) := by
  simp [removedName]

/-- Characterisation of the whole reconciliation fold: the final
reminders table keeps exactly the rows not matched by a visible orphan
entry, the final queue is the initial queue minus every name any entry
cancels, followed by one freshly registered job per non-orphan entry in
snapshot order, and the counters tally orphans and registrations while
`n_skip_time` and `n_fail` never move. -/
theorem foldl_schedStep_spec (rems : List Rem) : ∀ (st : SweepState),
    ((rems.map fun rem => rem.2.1).Nodup) →
    (∀ a ∈ rems, ∀ b ∈ rems, a.2.2.2 = _jname b.1 b.2.1 → a.2.1 = b.2.1) →
    (rems.foldl schedStep st).db = { st.db with
      reminders := st.db.reminders.filter fun r =>
        !(rems.any fun rem => (habitName st.db.habits rem.2.1).isNone && rem.2.1 == r.habit_id) }
    ∧ (rems.foldl schedStep st).jq
      = (st.jq.filter fun j => !(removedName rems j.name))
        ++ rems.filterMap (expectedJob st.db.habits)
    ∧ (rems.foldl schedStep st).n_sched
      = st.n_sched + rems.countP (fun rem => (habitName st.db.habits rem.2.1).isSome)
    ∧ (rems.foldl schedStep st).n_skip_del
      = st.n_skip_del + rems.countP (fun rem => (habitName st.db.habits rem.2.1).isNone)
    ∧ (rems.foldl schedStep st).n_skip_time = st.n_skip_time
    ∧ (rems.foldl schedStep st).n_fail = st.n_fail := by
  induction rems with
  | nil =>
    intro st _ _
    refine ⟨?_, ?_, ?_, ?_, rfl, rfl⟩
    · simp only [List.foldl_nil, List.any_nil, Bool.not_false, List.filter_true]
    · simp [removedName]
    · simp
    · simp
  | cons rem rest ih =>
    intro st hNodup hX
    have hNodup2 : ((rest.map fun r => r.2.1).Nodup) := by
      simp only [List.map_cons, List.nodup_cons] at hNodup
      exact hNodup.2
    have hHead : rem.2.1 ∉ rest.map fun r => r.2.1 := by
      simp only [List.map_cons, List.nodup_cons] at hNodup
      exact hNodup.1
    have hX2 : ∀ a ∈ rest, ∀ b ∈ rest, a.2.2.2 = _jname b.1 b.2.1 → a.2.1 = b.2.1 :=
      fun a ha b hb => hX a (List.mem_cons_of_mem rem ha) b (List.mem_cons_of_mem rem hb)
    rw [List.foldl_cons]
    cases horph : habitName st.db.habits rem.2.1 with
    | none =>
      rw [schedStep_orphan st rem horph]
      obtain ⟨hdb, hjq, hsch, hdel, htime, hfail⟩ := ih _ hNodup2 hX2
      dsimp only at hdb hjq hsch hdel htime hfail ⊢
      refine ⟨?_, ?_, ?_, ?_, htime, hfail⟩
      · rw [hdb]
        simp only [List.filter_filter]
        congr 1
        apply List.filter_congr
        intro r _
        simp only [List.any_cons, horph, Option.isNone_none, Bool.true_and, Bool.not_or]
        by_cases hr : rem.2.1 = r.habit_id
        · have hb1 : (rem.2.1 == r.habit_id) = true := by simpa using hr
          have hb2 : (r.habit_id == rem.2.1) = true := by simpa using hr.symm
          simp [hb1, hb2]
        · have hb1 : (rem.2.1 == r.habit_id) = false := by simpa using hr
          have hb2 : (r.habit_id == rem.2.1) = false := by
            simpa using fun he => hr he.symm
          simp [hb1, hb2]
      · rw [hjq]
        simp only [List.filter_filter]
        have hfm : (rem :: rest).filterMap (expectedJob st.db.habits)
            = rest.filterMap (expectedJob st.db.habits) := by
          rw [List.filterMap_cons]
          simp [expectedJob, horph]
        rw [hfm]
        congr 1
        apply List.filter_congr
        intro j _
        rw [removedName_cons]
        cases remRemoves rem j.name <;> cases removedName rest j.name <;> simp
      · rw [hsch]
        rw [List.countP_cons]
        simp [horph]
      · rw [hdel]
        rw [List.countP_cons]
        simp only [horph, Option.isNone_none, if_true]
        omega
    | some hn =>
      rw [schedStep_valid st rem hn horph]
      obtain ⟨hdb, hjq, hsch, hdel, htime, hfail⟩ := ih _ hNodup2 hX2
      dsimp only at hdb hjq hsch hdel htime hfail ⊢
      have hjobname : removedName rest (_jname rem.1 rem.2.1) = false := by
        cases hrn : removedName rest (_jname rem.1 rem.2.1) with
        | false => rfl
        | true =>
          exfalso
          simp only [removedName, List.any_eq_true] at hrn
          obtain ⟨b, hb, hbr⟩ := hrn
          simp only [remRemoves, Bool.or_eq_true, Bool.and_eq_true, beq_iff_eq] at hbr
          rcases hbr with hbr | hbr
          · obtain ⟨_, hhid⟩ := jname_inj hbr
            exact hHead (by
              rw [hhid]
              exact List.mem_map_of_mem (fun r => r.2.1) hb)
          · have := hX b (List.mem_cons_of_mem rem hb) rem (List.mem_cons_self rem rest)
              hbr.2.symm
            exact hHead (by
              rw [← this]
              exact List.mem_map_of_mem (fun r => r.2.1) hb)
      refine ⟨?_, ?_, ?_, ?_, htime, hfail⟩
      · rw [hdb]
        congr 1
        apply List.filter_congr
        intro r _
        simp only [List.any_cons, horph, Option.isNone_some, Bool.false_and, Bool.false_or]
      · rw [hjq]
        simp only [List.filter_append, List.filter_filter]
        have hsingle : List.filter (fun j => !(removedName rest j.name))
            [(⟨_jname rem.1 rem.2.1, rem.2.2.1, rem.1, rem.2.1, hn⟩ : Job)]
            = [⟨_jname rem.1 rem.2.1, rem.2.2.1, rem.1, rem.2.1, hn⟩] := by
          simp [List.filter, hjobname]
        rw [hsingle]
        have hfm : (rem :: rest).filterMap (expectedJob st.db.habits)
            = ⟨_jname rem.1 rem.2.1, rem.2.2.1, rem.1, rem.2.1, hn⟩
              :: rest.filterMap (expectedJob st.db.habits) := by
          rw [List.filterMap_cons]
          simp [expectedJob, horph]
        rw [hfm, List.append_assoc, List.singleton_append]
        congr 1
        apply List.filter_congr
        intro j _
        rw [removedName_cons]
        cases remRemoves rem j.name <;> cases removedName rest j.name <;> simp
      · rw [hsch]
        rw [List.countP_cons]
        simp only [horph, Option.isSome_some, if_true]
        omega
      · rw [hdel]
        rw [List.countP_cons]
        simp [horph]

theorem mem_getAllRemindersDB (db : DB) (e : Rem) :
    e ∈ getAllRemindersDB db ↔ ∃ r ∈ db.reminders,
      parseTimeStr r.reminder_time = some e.2.2.1
      ∧ e = (r.user_id, r.habit_id, e.2.2.1, r.job_name) := by
  unfold getAllRemindersDB
  rw [List.mem_filterMap]
  constructor
  · rintro ⟨r, hr, hf⟩
    cases hp : parseTimeStr r.reminder_time with
    | none => rw [hp] at hf; exact absurd hf (by simp)
    | some t =>
      rw [hp, Option.map_some'] at hf
      rw [Option.some_inj] at hf
      subst hf
      exact ⟨r, hr, hp, rfl⟩
  · rintro ⟨r, hr, hp, he⟩
    refine ⟨r, hr, ?_⟩
    rw [hp, Option.map_some', he]

theorem snap_hids_sublist (rs : List ReminderRow) :
    ((rs.filterMap fun r =>
        (parseTimeStr r.reminder_time).map fun t =>
          ((r.user_id, r.habit_id, t, r.job_name) : Rem)).map fun e => e.2.1).Sublist
      (rs.map fun r => r.habit_id) := by
  induction rs with
  | nil => simp
  | cons r rs ih =>
    cases hp : parseTimeStr r.reminder_time with
    | none =>
      simp only [List.filterMap_cons, hp, List.map_cons]
      exact ih.cons r.habit_id
    | some t =>
      simp only [List.filterMap_cons, hp, Option.map_some', List.map_cons]
      exact ih.cons₂ r.habit_id

theorem snap_nodup (db : DB) (hU : uniqueHids db) :
    ((getAllRemindersDB db).map fun e => e.2.1).Nodup :=
  List.Nodup.sublist (snap_hids_sublist db.reminders) hU

theorem snap_nocross (db : DB) (hN : nocross db) :
    ∀ a ∈ getAllRemindersDB db, ∀ b ∈ getAllRemindersDB db,
      a.2.2.2 = _jname b.1 b.2.1 → a.2.1 = b.2.1 := by
  intro a ha b hb hj
  obtain ⟨ra, hra, hpa, hea⟩ := (mem_getAllRemindersDB db a).mp ha
  obtain ⟨rb, hrb, hpb, heb⟩ := (mem_getAllRemindersDB db b).mp hb
  have h1 : ra.job_name = _jname rb.user_id rb.habit_id := by
    rw [hea] at hj
    rw [heb] at hj
    exact hj
  have h2 := hN ra hra rb hrb h1
  rw [hea, heb]
  exact h2

theorem sched_all_rems_eq_foldl (db : DB) (jq : List Job) :
    sched_all_rems db jq
      = (getAllRemindersDB db).foldl schedStep ⟨db, jq, 0, 0, 0, 0⟩ := by
  unfold sched_all_rems
  by_cases h : getAllRemindersDB db = []
  · rw [h]
    simp
  · have hne : (getAllRemindersDB db).isEmpty = false := by
      cases hl : getAllRemindersDB db with
      | nil => exact absurd hl h
      | cons a l => rfl
    dsimp only
    rw [hne]
    simp

/-- `sched_all_rems` on a store satisfying the schema's `habit_id`
uniqueness and the normal-operation job-name invariant: full
characterisation of the final store, queue and counters. -/
theorem sched_all_rems_spec (db : DB) (jq : List Job)
    (hU : uniqueHids db) (hN : nocross db) :
    (sched_all_rems db jq).db = { db with
      reminders := db.reminders.filter fun r =>
        !((getAllRemindersDB db).any fun rem =>
          (habitName db.habits rem.2.1).isNone && rem.2.1 == r.habit_id) }
    ∧ (sched_all_rems db jq).jq
      = (jq.filter fun j => !(removedName (getAllRemindersDB db) j.name))
        ++ (getAllRemindersDB db).filterMap (expectedJob db.habits)
    ∧ (sched_all_rems db jq).n_sched
      = (getAllRemindersDB db).countP (fun rem => (habitName db.habits rem.2.1).isSome)
    ∧ (sched_all_rems db jq).n_skip_del
      = (getAllRemindersDB db).countP (fun rem => (habitName db.habits rem.2.1).isNone)
    ∧ (sched_all_rems db jq).n_skip_time = 0
    ∧ (sched_all_rems db jq).n_fail = 0 := by
  rw [sched_all_rems_eq_foldl]
  have h := foldl_schedStep_spec (getAllRemindersDB db) ⟨db, jq, 0, 0, 0, 0⟩
    (snap_nodup db hU) (snap_nocross db hN)
  dsimp only at h
  obtain ⟨hdb, hjq, hsch, hdel, htime, hfail⟩ := h
  exact ⟨hdb, hjq, by simpa using hsch, by simpa using hdel, htime, hfail⟩

theorem filterMap_snap_filter (rs : List ReminderRow) (p : Nat → Bool) :
    ((rs.filter fun r => p r.habit_id).filterMap fun r =>
        (parseTimeStr r.reminder_time).map fun t =>
          ((r.user_id, r.habit_id, t, r.job_name) : Rem))
      = (rs.filterMap fun r =>
          (parseTimeStr r.reminder_time).map fun t =>
            ((r.user_id, r.habit_id, t, r.job_name) : Rem)).filter
          fun e => p e.2.1 := by
  induction rs with
  | nil => rfl
  | cons r rs ih =>
    cases hp : parseTimeStr r.reminder_time with
    | none =>
      rcases Bool.eq_false_or_eq_true (p r.habit_id) with hpr | hpr <;>
        simp [List.filter_cons, List.filterMap_cons, hp, hpr, ih]
    | some t =>
      rcases Bool.eq_false_or_eq_true (p r.habit_id) with hpr | hpr <;>
        simp [List.filter_cons, List.filterMap_cons, hp, hpr, ih]

theorem getAll_filter_hid (db : DB) (p : Nat → Bool) :
    getAllRemindersDB { db with reminders := db.reminders.filter fun r => p r.habit_id }
      = (getAllRemindersDB db).filter fun e => p e.2.1 := by
  unfold getAllRemindersDB
  exact filterMap_snap_filter db.reminders p

theorem filterMap_filter_isSome (rems : List Rem) (habits : List HabitRow) :
    (rems.filter fun e => (habitName habits e.2.1).isSome).filterMap (expectedJob habits)
      = rems.filterMap (expectedJob habits) := by
  induction rems with
  | nil => rfl
  | cons e rems ih =>
    cases hh : habitName habits e.2.1 with
    | none =>
      have h1 : ((habitName habits e.2.1).isSome : Bool) = false := by rw [hh]; rfl
      have h2 : expectedJob habits e = none := by simp [expectedJob, hh]
      simp only [List.filter_cons, h1, Bool.false_eq_true, if_false, List.filterMap_cons, h2, ih]
    | some hn =>
      have h1 : ((habitName habits e.2.1).isSome : Bool) = true := by rw [hh]; rfl
      simp only [List.filter_cons, h1, if_true, List.filterMap_cons]
      cases hej : expectedJob habits e with
      | none => simp [expectedJob, hh] at hej
      | some j => simp only [ih]

theorem names_of_filterMap (rems : List Rem) (habits : List HabitRow) :
    ((rems.filterMap (expectedJob habits)).map fun j => j.name)
      = (rems.filter fun e => (habitName habits e.2.1).isSome).map
          fun e => _jname e.1 e.2.1 := by
  induction rems with
  | nil => rfl
  | cons e rems ih =>
    cases hh : habitName habits e.2.1 with
    | none =>
      have h1 : ((habitName habits e.2.1).isSome : Bool) = false := by rw [hh]; rfl
      have h2 : expectedJob habits e = none := by simp [expectedJob, hh]
      simp only [List.filterMap_cons, h2, List.filter_cons, h1, Bool.false_eq_true, if_false, ih]
    | some hn =>
      have h1 : ((habitName habits e.2.1).isSome : Bool) = true := by rw [hh]; rfl
      have h2 : expectedJob habits e
          = some ⟨_jname e.1 e.2.1, e.2.2.1, e.1, e.2.1, hn⟩ := by simp [expectedJob, hh]
      simp only [List.filterMap_cons, h2, List.filter_cons, h1, if_true, List.map_cons, ih]

theorem run1_habits (db : DB) (jq : List Job) (hU : uniqueHids db) (hN : nocross db) :
    (sched_all_rems db jq).db.habits = db.habits := by
  rw [(sched_all_rems_spec db jq hU hN).1]

theorem run1_uniqueHids (db : DB) (jq : List Job) (hU : uniqueHids db) (hN : nocross db) :
    uniqueHids (sched_all_rems db jq).db := by
  rw [(sched_all_rems_spec db jq hU hN).1]
  unfold uniqueHids
  exact List.Nodup.sublist (List.Sublist.map _ (List.filter_sublist db.reminders)) hU

theorem run1_nocross (db : DB) (jq : List Job) (hU : uniqueHids db) (hN : nocross db) :
    nocross (sched_all_rems db jq).db := by
  rw [(sched_all_rems_spec db jq hU hN).1]
  intro r hr r2 hr2 hj
  exact hN r (List.mem_of_mem_filter hr) r2 (List.mem_of_mem_filter hr2) hj

theorem run1_snapshot (db : DB) (jq : List Job) (hU : uniqueHids db) (hN : nocross db) :
    getAllRemindersDB (sched_all_rems db jq).db
      = (getAllRemindersDB db).filter fun e => (habitName db.habits e.2.1).isSome := by
  have hdb1 : (sched_all_rems db jq).db = { db with
      reminders := db.reminders.filter fun r =>
        (fun h => !((getAllRemindersDB db).any fun rem =>
          (habitName db.habits rem.2.1).isNone && rem.2.1 == h)) r.habit_id } :=
    (sched_all_rems_spec db jq hU hN).1
  rw [hdb1]
  rw [getAll_filter_hid db (fun h => !((getAllRemindersDB db).any fun rem =>
    (habitName db.habits rem.2.1).isNone && rem.2.1 == h))]
  apply List.filter_congr
  intro e he
  cases hh : habitName db.habits e.2.1 with
  | none =>
    have hany : ((getAllRemindersDB db).any fun rem =>
        (habitName db.habits rem.2.1).isNone && rem.2.1 == e.2.1) = true := by
      rw [List.any_eq_true]
      exact ⟨e, he, by simp [hh]⟩
    rw [hany]
    rfl
  | some hn =>
    have hany : ((getAllRemindersDB db).any fun rem =>
        (habitName db.habits rem.2.1).isNone && rem.2.1 == e.2.1) = false := by
      rw [List.any_eq_false]
      intro rem _
      simp only [Bool.and_eq_true, not_and]
      intro hnone hbe
      rw [beq_iff_eq] at hbe
      rw [hbe, hh] at hnone
      simp at hnone
    rw [hany]
    rfl

theorem run1_jq (db : DB) (hU : uniqueHids db) (hN : nocross db) :
    (sched_all_rems db []).jq
      = (getAllRemindersDB db).filterMap (expectedJob db.habits) := by
  have h := (sched_all_rems_spec db [] hU hN).2.1
  simpa using h

theorem mem_expectedJob (habits : List HabitRow) (rem : Rem) (j : Job)
    (h : expectedJob habits rem = some j) :
    ∃ hn, habitName habits rem.2.1 = some hn
      ∧ j = ⟨_jname rem.1 rem.2.1, rem.2.2.1, rem.1, rem.2.1, hn⟩ := by
  unfold expectedJob at h
  cases hh : habitName habits rem.2.1 with
  | none => rw [hh] at h; exact absurd h (by simp)
  | some hn =>
    rw [hh, Option.map_some'] at h
    rw [Option.some_inj] at h
    exact ⟨hn, rfl, h.symm⟩

/-- C3: the startup sweep is idempotent.  Running it a second time from
the state the first run left behind reproduces the same queue and
store, the registered job names are duplicate-free, and the second run
counts no failures and prunes nothing. -/
theorem sched_all_rems_idempotent (db : DB) (hU : uniqueHids db) (hN : nocross db) :
    (sched_all_rems (sched_all_rems db []).db (sched_all_rems db []).jq).jq
      = (sched_all_rems db []).jq
    ∧ (sched_all_rems (sched_all_rems db []).db (sched_all_rems db []).jq).db
      = (sched_all_rems db []).db
    ∧ ((sched_all_rems (sched_all_rems db []).db (sched_all_rems db []).jq).jq.map
        fun j => j.name).Nodup
    ∧ (sched_all_rems (sched_all_rems db []).db (sched_all_rems db []).jq).n_fail = 0
    ∧ (sched_all_rems (sched_all_rems db []).db (sched_all_rems db []).jq).n_skip_del = 0 := by
  have hU1 := run1_uniqueHids db [] hU hN
  have hN1 := run1_nocross db [] hU hN
  have hsnap := run1_snapshot db [] hU hN
  have hhab := run1_habits db [] hU hN
  have hjq1 := run1_jq db hU hN
  have spec2 := sched_all_rems_spec (sched_all_rems db []).db (sched_all_rems db []).jq hU1 hN1
  obtain ⟨hdb2, hjq2, _, hdel2, _, hfail2⟩ := spec2
  have hisSome : ∀ rem ∈ getAllRemindersDB (sched_all_rems db []).db,
      (habitName (sched_all_rems db []).db.habits rem.2.1).isSome = true := by
    intro rem hrem
    rw [hsnap] at hrem
    rw [hhab]
    exact (List.mem_filter.mp hrem).2
  have hjqmain :
      (sched_all_rems (sched_all_rems db []).db (sched_all_rems db []).jq).jq
        = (sched_all_rems db []).jq := by
    rw [hjq2]
    have hleft : ((sched_all_rems db []).jq.filter fun j =>
        !(removedName (getAllRemindersDB (sched_all_rems db []).db) j.name)) = [] := by
      rw [List.filter_eq_nil_iff]
      intro j hj
      rw [hjq1, List.mem_filterMap] at hj
      obtain ⟨rem, hrem, hejob⟩ := hj
      obtain ⟨hn, hhn, hjeq⟩ := mem_expectedJob db.habits rem j hejob
      have hrem2 : rem ∈ getAllRemindersDB (sched_all_rems db []).db := by
        rw [hsnap, List.mem_filter]
        exact ⟨hrem, by rw [hhn]; rfl⟩
      simp only [Bool.not_eq_true', Bool.not_eq_false]
      rw [removedName, List.any_eq_true]
      refine ⟨rem, hrem2, ?_⟩
      rw [remRemoves, Bool.or_eq_true]
      left
      rw [hjeq]
      exact beq_self_eq_true _
    rw [hleft, List.nil_append]
    rw [hsnap, hhab, filterMap_filter_isSome]
    rw [hjq1]
  refine ⟨hjqmain, ?_, ?_, hfail2, ?_⟩
  · rw [hdb2]
    have hall : ((sched_all_rems db []).db.reminders.filter fun r =>
        !((getAllRemindersDB (sched_all_rems db []).db).any fun rem =>
          (habitName (sched_all_rems db []).db.habits rem.2.1).isNone && rem.2.1 == r.habit_id))
        = (sched_all_rems db []).db.reminders := by
      apply List.filter_eq_self.mpr
      intro r _
      have hany : ((getAllRemindersDB (sched_all_rems db []).db).any fun rem =>
          (habitName (sched_all_rems db []).db.habits rem.2.1).isNone && rem.2.1 == r.habit_id)
          = false := by
        rw [List.any_eq_false]
        intro rem hrem
        have := hisSome rem hrem
        simp only [Bool.and_eq_true, not_and]
        intro hnone
        rw [Option.isNone_iff_eq_none] at hnone
        rw [hnone] at this
        simp at this
      rw [hany]
      rfl
    rw [hall]
  · rw [hjqmain]
    rw [hjq1, names_of_filterMap]
    have hids : (((getAllRemindersDB db).filter fun e =>
        (habitName db.habits e.2.1).isSome).map fun e => e.2.1).Nodup :=
      List.Nodup.sublist
        (List.Sublist.map _ (List.filter_sublist (getAllRemindersDB db)))
        (snap_nodup db hU)
    apply List.Nodup.map_on
    · intro x hx y hy hxy
      exact List.inj_on_of_nodup_map hids hx hy (jname_inj hxy).2
    · exact List.Nodup.of_map _ hids
  · rw [hdel2]
    rw [List.countP_eq_zero]
    intro rem hrem
    have hs := hisSome rem hrem
    intro hnone
    rw [Option.isNone_iff_eq_none] at hnone
    rw [hnone] at hs
    simp at hs

/-! ### Claim theorems -/

/-- C8: `_jname` is a pure, deterministic, injective function of
`(user_id, habit_id)`: it renders exactly `"reminder_<uid>_<hid>"`
(so `(42, 7)` maps to `"reminder_42_7"`), equal pairs give equal names,
and equal names force equal pairs. -/
theorem jname_format_deterministic_injective :
    _jname 42 7 = "reminder_42_7"
    ∧ (∀ u1 h1 u2 h2 : Nat, u1 = u2 → h1 = h2 → _jname u1 h1 = _jname u2 h2)
    ∧ (∀ u1 h1 u2 h2 : Nat, _jname u1 h1 = _jname u2 h2 → u1 = u2 ∧ h1 = h2) := by
  refine ⟨by decide, ?_, ?_⟩
  · intro u1 h1 u2 h2 hu hh
    rw [hu, hh]
  · intro u1 h1 u2 h2 h
    exact jname_inj h

theorem jname_format_deterministic_injective_witness :
    _jname 42 7 = _jname 42 7 ∧ (42 = 42 ∧ 7 = 7) :=
  ⟨jname_format_deterministic_injective.2.1 42 7 42 7 rfl rfl,
    jname_format_deterministic_injective.2.2 42 7 42 7 rfl⟩

/-- C9: removal is idempotent on absent targets.
`remove_reminder_by_habit_id` on a habit with no stored reminder
returns `None` and leaves the store unchanged; `_rm_job_by_name` on a
name with no registered trigger returns `false` and leaves the queue
unchanged. -/
theorem removal_idempotent_on_absent :
    (∀ (db : DB) (hid : Nat), (∀ r ∈ db.reminders, r.habit_id ≠ hid) →
      remove_reminder_by_habit_id (some db) hid = .ok (none, db))
    ∧ (∀ (jq : List Job) (n : String), (∀ j ∈ jq, j.name ≠ n) →
      _rm_job_by_name jq n = (false, jq)) := by
  constructor
  · intro db hid h
    unfold remove_reminder_by_habit_id removeReminderDB getReminderDB
    dsimp only
    have hf : db.reminders.find? (fun r => r.habit_id == hid) = none := by
      rw [List.find?_eq_none]
      intro r hr
      simpa using h r hr
    rw [hf]
  · exact fun jq n h => rm_job_absent jq n h

/-- Store used by concrete removal evaluations: one reminder for
habit 1, none for habit 5. -/
def dbW9 : DB := ⟨[2], [⟨1, 2, "run"⟩], [⟨1, 1, 2, "08:30:00", "reminder_2_1"⟩], 2⟩

theorem removal_idempotent_on_absent_witness :
    remove_reminder_by_habit_id (some dbW9) 5 = .ok (none, dbW9)
    ∧ _rm_job_by_name [] "reminder_1_1" = (false, []) :=
  ⟨removal_idempotent_on_absent.1 dbW9 5 (by decide),
    removal_idempotent_on_absent.2 [] "reminder_1_1" (by intro j hj; simp at hj)⟩

/-- C2 counterexample: with the global connection down (`_db is None`),
the store upsert does not return a boolean — the `ConnectionError`
raised by `get_db_connection` propagates to the caller, refuting
"never lets any exception propagate". -/
theorem store_conn_error_propagates :
    add_or_update_reminder_db none 1 1 ⟨8, 30, 0⟩ "reminder_1_1"
      = .error .connectionError := rfl

/-- C2 (amended): with a live connection every `aiosqlite` failure
(constraint violation included) is caught inside the five ReminderStore
operations and surfaced as `False` / `None` / `[]` — no exception
escapes; but when the global connection is unavailable, every one of
them propagates `ConnectionError` to its caller. -/
theorem store_ops_error_boundary :
    (∀ (db : DB) (uid hid : Nat) (t : PTime) (j : String),
      ∃ res, add_or_update_reminder_db (some db) uid hid t j = .ok res)
    ∧ (∀ (db : DB) (hid : Nat),
      get_reminder_by_habit_id (some db) hid = .ok (getReminderDB db hid))
    ∧ (∀ db : DB, get_all_reminders (some db) = .ok (getAllRemindersDB db))
    ∧ (∀ (db : DB) (hid : Nat),
      remove_reminder_by_habit_id (some db) hid = .ok (removeReminderDB db hid))
    ∧ (∀ (db : DB) (uid : Nat),
      get_user_reminders (some db) uid = .ok (getUserRemindersDB db uid))
    ∧ (∀ (uid hid : Nat) (t : PTime) (j : String),
      add_or_update_reminder_db none uid hid t j = .error .connectionError)
    ∧ (∀ hid : Nat, get_reminder_by_habit_id none hid = .error .connectionError)
    ∧ get_all_reminders none = .error .connectionError
    ∧ (∀ hid : Nat, remove_reminder_by_habit_id none hid = .error .connectionError)
    ∧ (∀ uid : Nat, get_user_reminders none uid = .error .connectionError) := by
  refine ⟨?_, fun _ _ => rfl, fun _ => rfl, fun _ _ => rfl, fun _ _ => rfl,
    fun _ _ _ _ => rfl, fun _ => rfl, rfl, fun _ => rfl, fun _ => rfl⟩
  intro db uid hid t j
  unfold add_or_update_reminder_db
  dsimp only
  cases h : upsertSQL (add_user_if_not_exists db uid) uid hid (timeToStr t) j with
  | ok db2 => exact ⟨(true, db2), rfl⟩
  | error e => exact ⟨(false, add_user_if_not_exists db uid), rfl⟩

/-- `INSERT OR IGNORE INTO Users` touches only the `Users` table. -/
theorem add_user_preserves (db : DB) (uid : Nat) :
    (add_user_if_not_exists db uid).habits = db.habits
    ∧ (add_user_if_not_exists db uid).reminders = db.reminders
    ∧ (add_user_if_not_exists db uid).next_rid = db.next_rid := by
  unfold add_user_if_not_exists
  by_cases h : uid ∈ db.users
  · rw [if_pos h]
    exact ⟨rfl, rfl, rfl⟩
  · rw [if_neg h]
    exact ⟨rfl, rfl, rfl⟩

/-- Store for the C1 evaluation: habit 1 exists and belongs to user 2;
user 3 (the caller) does not own it; no reminder rows. -/
def dbC1 : DB := ⟨[2], [⟨1, 2, "run"⟩], [], 1⟩

/-- C1 at the failing input, against the cited
`queries/reminder_queries.py` code: habit 1 belongs to user 2, yet the
upsert called by user 3 returns `True` and creates a reminder row owned
by user 3 for habit 1 — no ownership verification happens. -/
theorem upsert_no_ownership_check_eval :
    dbC1.habits = [⟨1, 2, "run"⟩]
    ∧ add_or_update_reminder_db (some dbC1) 3 1 ⟨8, 30, 0⟩ "reminder_3_1"
      = .ok (true, ⟨[2, 3], [⟨1, 2, "run"⟩], [⟨1, 1, 3, "08:30:00", "reminder_3_1"⟩], 2⟩) :=
  ⟨rfl, rfl⟩

/-- The same call against `db_manager.py`'s `add_or_update_reminder_db`
(the implementation `database/__init__.py` exports to the handlers):
whenever the habit does not belong to the caller, it fails closed with
`False` and the `Reminders` table is untouched — the behaviour the spec
describes. -/
theorem dbm_upsert_cross_user_fails_closed (db : DB) (uid hid : Nat) (t : PTime) (j : String)
    (h : ∀ hb ∈ db.habits, ¬(hb.habit_id = hid ∧ hb.user_id = uid)) :
    dbm_add_or_update_reminder_db (some db) uid hid t j
      = .ok (false, add_user_if_not_exists db uid)
    ∧ (add_user_if_not_exists db uid).reminders = db.reminders := by
  refine ⟨?_, (add_user_preserves db uid).2.1⟩
  unfold dbm_add_or_update_reminder_db
  dsimp only
  have ha : ((add_user_if_not_exists db uid).habits.any
      fun hb => hb.habit_id == hid && hb.user_id == uid) = false := by
    rw [(add_user_preserves db uid).1]
    rw [List.any_eq_false]
    intro hb hhb
    simp only [Bool.and_eq_true, beq_iff_eq, not_and]
    intro h1 h2
    exact h hb hhb ⟨h1, h2⟩
  rw [ha]
  simp

theorem dbm_upsert_cross_user_fails_closed_witness :
    dbm_add_or_update_reminder_db (some dbC1) 3 1 ⟨8, 30, 0⟩ "reminder_3_1"
      = .ok (false, add_user_if_not_exists dbC1 3)
    ∧ (add_user_if_not_exists dbC1 3).reminders = dbC1.reminders :=
  dbm_upsert_cross_user_fails_closed dbC1 3 1 ⟨8, 30, 0⟩ "reminder_3_1" (by decide)

/-- On the conflict path, a successful upsert maps the store row for
`hid` to one with the caller's `user_id`, the new time text and the new
job name, keeping `reminder_id` and every other row intact. -/
theorem upsert_conflict_frame (db : DB) (uid hid : Nat) (t : PTime) (j : String) (db2 : DB)
    (hrow : ∃ r ∈ db.reminders, r.habit_id = hid)
    (hok : add_or_update_reminder_db (some db) uid hid t j = .ok (true, db2)) :
    db2.reminders = db.reminders.map (fun r =>
      if r.habit_id == hid then
        { r with user_id := uid, reminder_time := timeToStr t, job_name := j }
      else r)
    ∧ db2.habits = db.habits ∧ db2.next_rid = db.next_rid := by
  obtain ⟨hhab, hrem, hrid⟩ := add_user_preserves db uid
  unfold add_or_update_reminder_db at hok
  dsimp only at hok
  cases hup : upsertSQL (add_user_if_not_exists db uid) uid hid (timeToStr t) j with
  | error e =>
    rw [hup] at hok
    simp at hok
  | ok d =>
    rw [hup] at hok
    simp only [Except.ok.injEq, Prod.mk.injEq, true_and] at hok
    subst hok
    unfold upsertSQL at hup
    cases hf : (add_user_if_not_exists db uid).reminders.find? (fun r => r.habit_id == hid) with
    | none =>
      exfalso
      obtain ⟨r, hr, hrh⟩ := hrow
      have hr2 : r ∈ (add_user_if_not_exists db uid).reminders := by rw [hrem]; exact hr
      have := List.find?_eq_none.mp hf r hr2
      simp [hrh] at this
    | some r0 =>
      rw [hf] at hup
      by_cases hcond : ((add_user_if_not_exists db uid).reminders.any
          (fun r => r.job_name == j && !(r.habit_id == hid))
          || !((add_user_if_not_exists db uid).users.contains uid)) = true
      · rw [if_pos hcond] at hup
        exact absurd hup (by simp)
      · rw [if_neg hcond] at hup
        simp only [Except.ok.injEq] at hup
        rw [← hup]
        refine ⟨?_, hhab, hrid⟩
        rw [hrem]

/-- Store for the C7 evaluation: habit 1 belongs to user 2 and already
has a reminder row (reminder_id 5) owned by user 2. -/
def dbC7 : DB := ⟨[2, 3], [⟨1, 2, "run"⟩], [⟨5, 1, 2, "07:00:00", "reminder_2_1"⟩], 6⟩

/-- The row the C7 upsert leaves behind. -/
def dbC7upd : DB := ⟨[2, 3], [⟨1, 2, "run"⟩], [⟨5, 1, 3, "08:30:00", "reminder_3_1"⟩], 6⟩

/-- C7 counterexample: before the conflicting upsert the stored row for
habit 1 has `user_id = 2`; user 3's upsert succeeds and rewrites it to
`user_id = 3` — `user_id` is NOT left unchanged (the SQL sets
`user_id = excluded.user_id`).  `reminder_id` (5) does stay. -/
theorem upsert_conflict_overwrites_user_id :
    (dbC7.reminders.map fun r => r.user_id) = [2]
    ∧ add_or_update_reminder_db (some dbC7) 3 1 ⟨8, 30, 0⟩ "reminder_3_1"
      = .ok (true, dbC7upd)
    ∧ (dbC7upd.reminders.map fun r => r.user_id) = [3]
    ∧ (dbC7upd.reminders.map fun r => r.reminder_id) = [5] :=
  ⟨rfl, rfl, rfl, rfl⟩

/-- C7 (amended): on conflict the upsert replaces the row's
`reminder_time`, `job_name` AND `user_id` (set to the caller's id);
`reminder_id` and all other rows are left unchanged, as are the other
tables. -/
theorem upsert_conflict_frame_claim (db : DB) (uid hid : Nat) (t : PTime) (j : String)
    (db2 : DB) (hrow : ∃ r ∈ db.reminders, r.habit_id = hid)
    (hok : add_or_update_reminder_db (some db) uid hid t j = .ok (true, db2)) :
    db2.reminders = db.reminders.map (fun r =>
      if r.habit_id == hid then
        { r with user_id := uid, reminder_time := timeToStr t, job_name := j }
      else r)
    ∧ db2.habits = db.habits ∧ db2.next_rid = db.next_rid :=
  upsert_conflict_frame db uid hid t j db2 hrow hok

theorem upsert_conflict_frame_claim_witness :
    dbC7upd.reminders = dbC7.reminders.map (fun r =>
      if r.habit_id == 1 then
        { r with user_id := 3, reminder_time := timeToStr ⟨8, 30, 0⟩, job_name := "reminder_3_1" }
      else r)
    ∧ dbC7upd.habits = dbC7.habits ∧ dbC7upd.next_rid = dbC7.next_rid :=
  upsert_conflict_frame_claim dbC7 3 1 ⟨8, 30, 0⟩ "reminder_3_1" dbC7upd
    ⟨⟨5, 1, 2, "07:00:00", "reminder_2_1"⟩, by decide, rfl⟩ rfl

theorem uniqueHids_inj (db : DB) (hU : uniqueHids db) :
    ∀ r1 ∈ db.reminders, ∀ r2 ∈ db.reminders, r1.habit_id = r2.habit_id → r1 = r2 :=
  fun _ h1 _ h2 he => List.inj_on_of_nodup_map hU h1 h2 he

theorem upsert_preserves_uniqueHids (db : DB) (uid hid : Nat) (t : PTime) (j : String)
    (b : Bool) (db2 : DB) (hU : uniqueHids db)
    (hok : add_or_update_reminder_db (some db) uid hid t j = .ok (b, db2)) :
    uniqueHids db2 := by
  obtain ⟨hhab, hrem, hrid⟩ := add_user_preserves db uid
  have hU1 : uniqueHids (add_user_if_not_exists db uid) := by
    unfold uniqueHids
    rw [hrem]
    exact hU
  unfold add_or_update_reminder_db at hok
  dsimp only at hok
  cases hup : upsertSQL (add_user_if_not_exists db uid) uid hid (timeToStr t) j with
  | error e =>
    rw [hup] at hok
    simp only [Except.ok.injEq, Prod.mk.injEq] at hok
    rw [← hok.2]
    exact hU1
  | ok d =>
    rw [hup] at hok
    simp only [Except.ok.injEq, Prod.mk.injEq] at hok
    rw [← hok.2]
    unfold upsertSQL at hup
    cases hf : (add_user_if_not_exists db uid).reminders.find? (fun r => r.habit_id == hid) with
    | some r0 =>
      rw [hf] at hup
      by_cases hcond : ((add_user_if_not_exists db uid).reminders.any
          (fun r => r.job_name == j && !(r.habit_id == hid))
          || !((add_user_if_not_exists db uid).users.contains uid)) = true
      · rw [if_pos hcond] at hup
        exact absurd hup (by simp)
      · rw [if_neg hcond] at hup
        simp only [Except.ok.injEq] at hup
        rw [← hup]
        unfold uniqueHids
        dsimp only
        rw [List.map_map]
        have hcomp : ((fun r : ReminderRow => r.habit_id) ∘ (fun r =>
            if r.habit_id == hid then
              { r with user_id := uid, reminder_time := timeToStr t, job_name := j }
            else r)) = fun r : ReminderRow => r.habit_id := by
          funext r
          by_cases hr : (r.habit_id == hid) = true
          · simp [Function.comp, hr]
          · simp only [Bool.not_eq_true] at hr
            simp [Function.comp, hr]
        rw [hcomp]
        exact hU1
    | none =>
      rw [hf] at hup
      by_cases hcond : (!((add_user_if_not_exists db uid).habits.any
            fun h => h.habit_id == hid)
          || !((add_user_if_not_exists db uid).users.contains uid)
          || (add_user_if_not_exists db uid).reminders.any (fun r => r.job_name == j)) = true
      · rw [if_pos hcond] at hup
        exact absurd hup (by simp)
      · rw [if_neg hcond] at hup
        simp only [Except.ok.injEq] at hup
        rw [← hup]
        unfold uniqueHids
        dsimp only
        rw [List.map_append]
        apply List.Nodup.append hU1
        · simp
        · intro a ha hb
          simp only [List.map_cons, List.map_nil, List.mem_singleton] at hb
          obtain ⟨r, hr, hre⟩ := List.mem_map.mp ha
          have := List.find?_eq_none.mp hf r hr
          rw [hre, hb] at this
          simp at this

/-- Folding a list of upsert calls over the store, each taking effect
through `add_or_update_reminder_db` against a live connection. -/
def upsertSeq (db : DB) (calls : List (Nat × Nat × PTime × String)) : DB :=
  calls.foldl (fun d c =>
    match add_or_update_reminder_db (some d) c.1 c.2.1 c.2.2.1 c.2.2.2 with
    | .ok p => p.2
    | .error _ => d) db

theorem upsertSeq_uniqueHids :
    ∀ (calls : List (Nat × Nat × PTime × String)) (db : DB),
      uniqueHids db → uniqueHids (upsertSeq db calls) := by
  intro calls
  induction calls with
  | nil => exact fun db h => h
  | cons c rest ih =>
    intro db h
    have hstep2 : upsertSeq db (c :: rest)
        = upsertSeq (match add_or_update_reminder_db (some db) c.1 c.2.1 c.2.2.1 c.2.2.2 with
            | .ok p => p.2
            | .error _ => db) rest := by
      unfold upsertSeq
      rw [List.foldl_cons]
    rw [hstep2]
    cases hstep : add_or_update_reminder_db (some db) c.1 c.2.1 c.2.2.1 c.2.2.2 with
    | ok p =>
      exact ih p.2 (upsert_preserves_uniqueHids db c.1 c.2.1 c.2.2.1 c.2.2.2 p.1 p.2 h
        (by rw [hstep]))
    | error e => exact ih db h

theorem upsert_ok_true_row_exists (db : DB) (uid hid : Nat) (t : PTime) (j : String)
    (db2 : DB)
    (hok : add_or_update_reminder_db (some db) uid hid t j = .ok (true, db2)) :
    ∃ r ∈ db2.reminders, r.habit_id = hid := by
  unfold add_or_update_reminder_db at hok
  dsimp only at hok
  cases hup : upsertSQL (add_user_if_not_exists db uid) uid hid (timeToStr t) j with
  | error e =>
    rw [hup] at hok
    simp at hok
  | ok d =>
    rw [hup] at hok
    simp only [Except.ok.injEq, Prod.mk.injEq, true_and] at hok
    subst hok
    unfold upsertSQL at hup
    cases hf : (add_user_if_not_exists db uid).reminders.find? (fun r => r.habit_id == hid) with
    | some r0 =>
      rw [hf] at hup
      by_cases hcond : ((add_user_if_not_exists db uid).reminders.any
          (fun r => r.job_name == j && !(r.habit_id == hid))
          || !((add_user_if_not_exists db uid).users.contains uid)) = true
      · rw [if_pos hcond] at hup
        exact absurd hup (by simp)
      · rw [if_neg hcond] at hup
        simp only [Except.ok.injEq] at hup
        rw [← hup]
        dsimp only
        have hr0mem := List.mem_of_find?_eq_some hf
        have hr0hid : (r0.habit_id == hid) = true := by
          simpa using List.find?_some hf
        refine ⟨{ r0 with user_id := uid, reminder_time := timeToStr t, job_name := j }, ?_, ?_⟩
        · have := List.mem_map_of_mem (fun r : ReminderRow =>
            if r.habit_id == hid then
              { r with user_id := uid, reminder_time := timeToStr t, job_name := j }
            else r) hr0mem
          simpa [hr0hid] using this
        · simpa using hr0hid
    | none =>
      rw [hf] at hup
      by_cases hcond : (!((add_user_if_not_exists db uid).habits.any
            fun h => h.habit_id == hid)
          || !((add_user_if_not_exists db uid).users.contains uid)
          || (add_user_if_not_exists db uid).reminders.any (fun r => r.job_name == j)) = true
      · rw [if_pos hcond] at hup
        exact absurd hup (by simp)
      · rw [if_neg hcond] at hup
        simp only [Except.ok.injEq] at hup
        rw [← hup]
        dsimp only
        exact ⟨⟨(add_user_if_not_exists db uid).next_rid, hid, uid, timeToStr t, j⟩,
          List.mem_append_right _ (List.mem_singleton_self _), rfl⟩

theorem countP_hid_eq_one (rs : List ReminderRow) (hid : Nat)
    (hN : (rs.map fun r => r.habit_id).Nodup)
    (hex : ∃ r ∈ rs, r.habit_id = hid) :
    rs.countP (fun r => r.habit_id == hid) = 1 := by
  induction rs with
  | nil =>
    obtain ⟨r, hr, _⟩ := hex
    simp at hr
  | cons r rest ih =>
    simp only [List.map_cons, List.nodup_cons] at hN
    rw [List.countP_cons]
    by_cases hr : r.habit_id = hid
    · have hb : (r.habit_id == hid) = true := by simpa using hr
      rw [hb]
      have hz : rest.countP (fun r2 => r2.habit_id == hid) = 0 := by
        rw [List.countP_eq_zero]
        intro a hamem hax
        rw [beq_iff_eq] at hax
        exact hN.1 (by
          rw [hr, ← hax]
          exact List.mem_map_of_mem (fun r2 => r2.habit_id) hamem)
      rw [hz]
      simp
    · have hb : (r.habit_id == hid) = false := by simpa using hr
      rw [hb]
      simp only [Bool.false_eq_true, if_false, Nat.add_zero]
      apply ih hN.2
      obtain ⟨r2, hr2, hr2h⟩ := hex
      rcases List.mem_cons.mp hr2 with he | he
      · rw [he] at hr2h
        exact absurd hr2h hr
      · exact ⟨r2, he, hr2h⟩

theorem upsert_twice_lemma (db : DB) (uid hid : Nat) (t1 t2 : PTime) (j1 j2 : String)
    (dbA dbB : DB) (hU : uniqueHids db)
    (h1 : add_or_update_reminder_db (some db) uid hid t1 j1 = .ok (true, dbA))
    (h2 : add_or_update_reminder_db (some dbA) uid hid t2 j2 = .ok (true, dbB)) :
    dbB.reminders.countP (fun r => r.habit_id == hid) = 1
    ∧ ∀ r ∈ dbB.reminders, r.habit_id = hid →
        r.user_id = uid ∧ r.reminder_time = timeToStr t2 ∧ r.job_name = j2 := by
  have hUA := upsert_preserves_uniqueHids db uid hid t1 j1 true dbA hU h1
  have hexA := upsert_ok_true_row_exists db uid hid t1 j1 dbA h1
  obtain ⟨hmap, _, _⟩ := upsert_conflict_frame dbA uid hid t2 j2 dbB hexA h2
  constructor
  · rw [hmap, List.countP_map]
    have hconv : ((fun r : ReminderRow => r.habit_id == hid) ∘ (fun r =>
        if r.habit_id == hid then
          { r with user_id := uid, reminder_time := timeToStr t2, job_name := j2 }
        else r)) = fun r : ReminderRow => r.habit_id == hid := by
      funext r
      by_cases hr : (r.habit_id == hid) = true
      · simp [Function.comp, hr]
      · simp only [Bool.not_eq_true] at hr
        simp [Function.comp, hr]
    rw [hconv]
    exact countP_hid_eq_one dbA.reminders hid hUA hexA
  · intro r hr hrh
    rw [hmap] at hr
    obtain ⟨r0, hr0, hre⟩ := List.mem_map.mp hr
    by_cases hc : (r0.habit_id == hid) = true
    · rw [if_pos hc] at hre
      rw [← hre]
      exact ⟨rfl, rfl, rfl⟩
    · rw [if_neg hc] at hre
      rw [← hre] at hrh
      exact absurd (by simpa using hrh) hc

/-- C6: after any sequence of upsert calls the store never holds two
rows for one `habit_id` (the `ON CONFLICT(habit_id)` path updates in
place; the insert path only fires when no row exists), and two
successful upserts on the same `habit_id` leave exactly one row for it,
holding the second call's time text and job name (and the caller's
user id). -/
theorem upsert_at_most_one_row_per_habit :
    (∀ (db : DB) (calls : List (Nat × Nat × PTime × String)),
      uniqueHids db → uniqueHids (upsertSeq db calls))
    ∧ (∀ (db : DB) (uid hid : Nat) (t1 t2 : PTime) (j1 j2 : String) (dbA dbB : DB),
      uniqueHids db →
      add_or_update_reminder_db (some db) uid hid t1 j1 = .ok (true, dbA) →
      add_or_update_reminder_db (some dbA) uid hid t2 j2 = .ok (true, dbB) →
      dbB.reminders.countP (fun r => r.habit_id == hid) = 1
      ∧ ∀ r ∈ dbB.reminders, r.habit_id = hid →
          r.user_id = uid ∧ r.reminder_time = timeToStr t2 ∧ r.job_name = j2) :=
  ⟨fun db calls h => upsertSeq_uniqueHids calls db h,
    fun db uid hid t1 t2 j1 j2 dbA dbB hU h1 h2 =>
      upsert_twice_lemma db uid hid t1 t2 j1 j2 dbA dbB hU h1 h2⟩

/-- Initial store for the C6 evaluation. -/
def dbW6 : DB := ⟨[42], [⟨7, 42, "x"⟩], [], 1⟩

/-- The store after the first C6 upsert (08:30:00). -/
def dbA6 : DB := ⟨[42], [⟨7, 42, "x"⟩], [⟨1, 7, 42, "08:30:00", "reminder_42_7"⟩], 2⟩

/-- The store after the second C6 upsert (09:00:00). -/
def dbB6 : DB := ⟨[42], [⟨7, 42, "x"⟩], [⟨1, 7, 42, "09:00:00", "reminder_42_7"⟩], 2⟩

theorem upsert_at_most_one_row_per_habit_witness :
    uniqueHids (upsertSeq dbW6 [(42, 7, ⟨8, 30, 0⟩, "reminder_42_7")])
    ∧ (dbB6.reminders.countP (fun r => r.habit_id == 7) = 1
      ∧ ∀ r ∈ dbB6.reminders, r.habit_id = 7 →
          r.user_id = 42 ∧ r.reminder_time = timeToStr ⟨9, 0, 0⟩
            ∧ r.job_name = "reminder_42_7") :=
  ⟨upsert_at_most_one_row_per_habit.1 dbW6 [(42, 7, ⟨8, 30, 0⟩, "reminder_42_7")]
      (by unfold uniqueHids; decide),
    upsert_at_most_one_row_per_habit.2 dbW6 42 7 ⟨8, 30, 0⟩ ⟨9, 0, 0⟩
      "reminder_42_7" "reminder_42_7" dbA6 dbB6 (by unfold uniqueHids; decide) rfl rfl⟩

theorem rem_cb_send_eq (db : DB) (jq : List Job) (uid hid : Nat) (hname : String)
    (out : SendOutcome) (huid : uid ≠ 0) (hhid : hid ≠ 0) (hhn : hname ≠ "") :
    rem_cb db jq (some uid) (some hid) (some hname) out
      = match out with
        | .success => (db, jq)
        | .forbidden => ((rm_rem_job_by_hid db jq hid).2.1, (rm_rem_job_by_hid db jq hid).2.2)
        | .badRequest => ((rm_rem_job_by_hid db jq hid).2.1, (rm_rem_job_by_hid db jq hid).2.2)
        | .otherError => (db, jq) := by
  have h1 : truthyNat (some uid) = true := by simp [truthyNat, huid]
  have h2 : truthyNat (some hid) = true := by simp [truthyNat, hhid]
  have h3 : truthyStr (some hname) = true := by simp [truthyStr, hhn]
  unfold rem_cb
  rw [h1, h2, h3]
  cases out <;> simp

theorem rm_rem_job_removes (db : DB) (jq : List Job) (hid : Nat) (row : ReminderRow)
    (hU : uniqueHids db) (hrow : row ∈ db.reminders) (hhid : row.habit_id = hid)
    (hjobs : ∀ j ∈ jq, j.habit_id = hid → j.name = row.job_name)
    (hne : row.job_name ≠ "") :
    (rm_rem_job_by_hid db jq hid).1 = true
    ∧ (∀ r2 ∈ (rm_rem_job_by_hid db jq hid).2.1.reminders, r2.habit_id ≠ hid)
    ∧ (∀ j ∈ (rm_rem_job_by_hid db jq hid).2.2, j.habit_id ≠ hid) := by
  unfold rm_rem_job_by_hid dbm_removeReminderDB
  cases hf : db.reminders.find? (fun r => r.habit_id == hid) with
  | none =>
    exfalso
    have := List.find?_eq_none.mp hf row hrow
    simp [hhid] at this
  | some r0 =>
    have hr0mem := List.mem_of_find?_eq_some hf
    have hr0hid : r0.habit_id = hid := by
      simpa using List.find?_some hf
    have hr0 : r0 = row := uniqueHids_inj db hU r0 hr0mem row hrow (by rw [hr0hid, hhid])
    subst hr0
    have hbne : (r0.job_name != "") = true := by
      simpa using hne
    dsimp only
    rw [hbne]
    simp only [if_true]
    refine ⟨trivial, ?_, ?_⟩
    · intro r2 hr2
      have := (List.mem_filter.mp hr2).2
      simpa using this
    · intro j hj
      rw [rm_job_snd] at hj
      obtain ⟨hjmem, hjname⟩ := List.mem_filter.mp hj
      intro hjh
      have := hjobs j hjmem hjh
      rw [this] at hjname
      simp at hjname

/-- C5: at fire time with valid job data, a permanent send failure
(`Forbidden` — recipient blocked the bot — or `BadRequest` — invalid
recipient/chat) makes `rem_cb` remove the reminder from both the store
and the queue; any other send failure (and success) leaves both
untouched, with no retry inside the fire. -/
theorem rem_cb_permanent_vs_transient (db : DB) (jq : List Job) (uid hid : Nat)
    (hname : String) (row : ReminderRow)
    (hU : uniqueHids db) (huid : uid ≠ 0) (hhid : hid ≠ 0) (hhn : hname ≠ "")
    (hrow : row ∈ db.reminders) (hrh : row.habit_id = hid)
    (hjobs : ∀ j ∈ jq, j.habit_id = hid → j.name = row.job_name)
    (hjn : row.job_name ≠ "") :
    ((∀ r2 ∈ (rem_cb db jq (some uid) (some hid) (some hname) .forbidden).1.reminders,
        r2.habit_id ≠ hid)
      ∧ (∀ j ∈ (rem_cb db jq (some uid) (some hid) (some hname) .forbidden).2,
        j.habit_id ≠ hid))
    ∧ ((∀ r2 ∈ (rem_cb db jq (some uid) (some hid) (some hname) .badRequest).1.reminders,
        r2.habit_id ≠ hid)
      ∧ (∀ j ∈ (rem_cb db jq (some uid) (some hid) (some hname) .badRequest).2,
        j.habit_id ≠ hid))
    ∧ rem_cb db jq (some uid) (some hid) (some hname) .otherError = (db, jq)
    ∧ rem_cb db jq (some uid) (some hid) (some hname) .success = (db, jq) := by
  obtain ⟨-, hdb, hjq⟩ := rm_rem_job_removes db jq hid row hU hrow hrh hjobs hjn
  refine ⟨?_, ?_, ?_, ?_⟩
  · rw [rem_cb_send_eq db jq uid hid hname .forbidden huid hhid hhn]
    exact ⟨hdb, hjq⟩
  · rw [rem_cb_send_eq db jq uid hid hname .badRequest huid hhid hhn]
    exact ⟨hdb, hjq⟩
  · rw [rem_cb_send_eq db jq uid hid hname .otherError huid hhid hhn]
  · rw [rem_cb_send_eq db jq uid hid hname .success huid hhid hhn]

/-- Store and queue for the C5 evaluation. -/
def dbW5 : DB := ⟨[2], [⟨1, 2, "run"⟩], [⟨1, 1, 2, "08:30:00", "reminder_2_1"⟩], 2⟩

/-- The single registered job of the C5 evaluation. -/
def jqW5 : List Job := [⟨"reminder_2_1", ⟨8, 30, 0⟩, 2, 1, "run"⟩]

theorem rem_cb_permanent_vs_transient_witness :
    ((∀ r2 ∈ (rem_cb dbW5 jqW5 (some 2) (some 1) (some "run") .forbidden).1.reminders,
        r2.habit_id ≠ 1)
      ∧ (∀ j ∈ (rem_cb dbW5 jqW5 (some 2) (some 1) (some "run") .forbidden).2,
        j.habit_id ≠ 1))
    ∧ ((∀ r2 ∈ (rem_cb dbW5 jqW5 (some 2) (some 1) (some "run") .badRequest).1.reminders,
        r2.habit_id ≠ 1)
      ∧ (∀ j ∈ (rem_cb dbW5 jqW5 (some 2) (some 1) (some "run") .badRequest).2,
        j.habit_id ≠ 1))
    ∧ rem_cb dbW5 jqW5 (some 2) (some 1) (some "run") .otherError = (dbW5, jqW5)
    ∧ rem_cb dbW5 jqW5 (some 2) (some 1) (some "run") .success = (dbW5, jqW5) :=
  rem_cb_permanent_vs_transient dbW5 jqW5 2 1 "run" ⟨1, 1, 2, "08:30:00", "reminder_2_1"⟩
    (by unfold uniqueHids; decide) (by decide) (by decide) (by decide)
    (by decide) rfl (by decide) (by decide)

/-- C4: a loaded reminder row whose habit no longer exists is deleted
from the store by the sweep; afterwards no queue trigger for that habit
remains (its stored and freshly recomputed names are both cancelled,
and nothing re-registers it), while every non-orphan snapshot entry
still gets its job registered — the sweep does not abort. -/
theorem sweep_prunes_orphan (db : DB) (jq : List Job) (row : ReminderRow) (t : PTime)
    (hU : uniqueHids db) (hN : nocross db)
    (hrow : row ∈ db.reminders) (hparse : parseTimeStr row.reminder_time = some t)
    (horph : habitName db.habits row.habit_id = none) (hjn : row.job_name ≠ "")
    (hjobs : ∀ j ∈ jq, j.habit_id = row.habit_id →
      (j.name = row.job_name ∨ j.name = _jname row.user_id row.habit_id)) :
    (∀ r2 ∈ (sched_all_rems db jq).db.reminders, r2.habit_id ≠ row.habit_id)
    ∧ (∀ j ∈ (sched_all_rems db jq).jq, j.habit_id ≠ row.habit_id)
    ∧ (∀ e ∈ getAllRemindersDB db, ∀ hn, habitName db.habits e.2.1 = some hn →
        (⟨_jname e.1 e.2.1, e.2.2.1, e.1, e.2.1, hn⟩ : Job) ∈ (sched_all_rems db jq).jq) := by
  have hmem : ((row.user_id, row.habit_id, t, row.job_name) : Rem) ∈ getAllRemindersDB db :=
    (mem_getAllRemindersDB db _).mpr ⟨row, hrow, hparse, rfl⟩
  refine ⟨?_, ?_, ?_⟩
  · intro r2 hr2
    rw [(sched_all_rems_spec db jq hU hN).1] at hr2
    obtain ⟨-, hpred⟩ := List.mem_filter.mp hr2
    intro heq
    simp only [Bool.not_eq_true', List.any_eq_false] at hpred
    have := hpred _ hmem
    simp only [Bool.and_eq_true, not_and] at this
    apply this
    · simp [horph]
    · simp [heq]
  · intro j hj
    rw [(sched_all_rems_spec db jq hU hN).2.1] at hj
    intro heq
    rcases List.mem_append.mp hj with hj | hj
    · obtain ⟨hjm, hfp⟩ := List.mem_filter.mp hj
      simp only [Bool.not_eq_true', removedName, List.any_eq_false] at hfp
      have hrr := hfp _ hmem
      rcases hjobs j hjm heq with hname | hname
      · apply hrr
        unfold remRemoves
        by_cases hse : row.job_name = _jname row.user_id row.habit_id
        · rw [Bool.or_eq_true]
          left
          rw [hname, hse]
          exact beq_self_eq_true _
        · rw [Bool.or_eq_true]
          right
          rw [Bool.and_eq_true, Bool.and_eq_true]
          refine ⟨⟨by simpa using hjn, by simpa using hse⟩, ?_⟩
          rw [hname]
          exact beq_self_eq_true _
      · apply hrr
        unfold remRemoves
        rw [Bool.or_eq_true]
        left
        rw [hname]
        exact beq_self_eq_true _
    · obtain ⟨rem, hrem, hej⟩ := List.mem_filterMap.mp hj
      obtain ⟨hn, hhn, hje⟩ := mem_expectedJob db.habits rem j hej
      have hjh : j.habit_id = rem.2.1 := by rw [hje]
      rw [heq] at hjh
      rw [← hjh] at hhn
      rw [horph] at hhn
      exact absurd hhn (by simp)
  · intro e he hn hhn
    rw [(sched_all_rems_spec db jq hU hN).2.1]
    apply List.mem_append.mpr
    right
    apply List.mem_filterMap.mpr
    refine ⟨e, he, ?_⟩
    unfold expectedJob
    rw [hhn, Option.map_some']

/-- Store and queue for the C4 evaluation: habit 1 is gone (orphan row
with a registered trigger), habit 2 still exists. -/
def dbW4 : DB := ⟨[2], [⟨2, 2, "walk"⟩],
  [⟨1, 1, 2, "08:30:00", "reminder_2_1"⟩, ⟨2, 2, 2, "09:00:00", "reminder_2_2"⟩], 3⟩

/-- The orphan's registered trigger before the C4 sweep. -/
def jqW4 : List Job := [⟨"reminder_2_1", ⟨8, 30, 0⟩, 2, 1, "run"⟩]

theorem sweep_prunes_orphan_witness :
    (∀ r2 ∈ (sched_all_rems dbW4 jqW4).db.reminders, r2.habit_id ≠ 1)
    ∧ (∀ j ∈ (sched_all_rems dbW4 jqW4).jq, j.habit_id ≠ 1)
    ∧ (∀ e ∈ getAllRemindersDB dbW4, ∀ hn, habitName dbW4.habits e.2.1 = some hn →
        (⟨_jname e.1 e.2.1, e.2.2.1, e.1, e.2.1, hn⟩ : Job) ∈ (sched_all_rems dbW4 jqW4).jq) :=
  sweep_prunes_orphan dbW4 jqW4 ⟨1, 1, 2, "08:30:00", "reminder_2_1"⟩ ⟨8, 30, 0⟩
    (by unfold uniqueHids; decide) (by unfold nocross; decide)
    (by decide) (by decide) (by decide) (by decide) (by decide)

/-- Store for the C3 evaluation. -/
def dbW3 : DB := ⟨[2], [⟨1, 2, "run"⟩], [⟨1, 1, 2, "08:30:00", "reminder_2_1"⟩], 2⟩

theorem sched_all_rems_idempotent_witness :
    (sched_all_rems (sched_all_rems dbW3 []).db (sched_all_rems dbW3 []).jq).jq
      = (sched_all_rems dbW3 []).jq
    ∧ (sched_all_rems (sched_all_rems dbW3 []).db (sched_all_rems dbW3 []).jq).db
      = (sched_all_rems dbW3 []).db
    ∧ ((sched_all_rems (sched_all_rems dbW3 []).db (sched_all_rems dbW3 []).jq).jq.map
        fun j => j.name).Nodup
    ∧ (sched_all_rems (sched_all_rems dbW3 []).db (sched_all_rems dbW3 []).jq).n_fail = 0
    ∧ (sched_all_rems (sched_all_rems dbW3 []).db (sched_all_rems dbW3 []).jq).n_skip_del = 0 :=
  sched_all_rems_idempotent dbW3 (by unfold uniqueHids; decide) (by unfold nocross; decide)

/-- C10: `get_all_reminders` returns exactly the stored rows whose
`reminder_time` text parses as a wall-clock time; a malformed row is
silently omitted — not returned, not deleted by the sweep, never
scheduled — and the sweep's skipped-for-bad-time counter stays zero
(the source never increments `n_skip_time`). -/
theorem get_all_omits_malformed (db : DB) (jq : List Job) (row : ReminderRow)
    (hU : uniqueHids db) (hN : nocross db)
    (hrow : row ∈ db.reminders) (hbad : parseTimeStr row.reminder_time = none) :
    (∀ e : Rem, e ∈ getAllRemindersDB db ↔ ∃ r ∈ db.reminders,
      parseTimeStr r.reminder_time = some e.2.2.1
      ∧ e = (r.user_id, r.habit_id, e.2.2.1, r.job_name))
    ∧ (∀ t : PTime,
      ((row.user_id, row.habit_id, t, row.job_name) : Rem) ∉ getAllRemindersDB db)
    ∧ row ∈ (sched_all_rems db jq).db.reminders
    ∧ (∀ j ∈ (sched_all_rems db []).jq, j.habit_id ≠ row.habit_id)
    ∧ (sched_all_rems db jq).n_skip_time = 0 := by
  have hnotin : ∀ rem ∈ getAllRemindersDB db, rem.2.1 ≠ row.habit_id := by
    intro rem hrem heq
    obtain ⟨r, hr, hp, he⟩ := (mem_getAllRemindersDB db rem).mp hrem
    have hrh : rem.2.1 = r.habit_id := by rw [he]
    have : r = row := uniqueHids_inj db hU r hr row hrow (by rw [← hrh, heq])
    rw [this, hbad] at hp
    exact absurd hp (by simp)
  refine ⟨fun e => mem_getAllRemindersDB db e, ?_, ?_, ?_,
    (sched_all_rems_spec db jq hU hN).2.2.2.2.1⟩
  · intro t hmem
    exact hnotin _ hmem rfl
  · rw [(sched_all_rems_spec db jq hU hN).1]
    apply List.mem_filter.mpr
    refine ⟨hrow, ?_⟩
    simp only [Bool.not_eq_true', List.any_eq_false]
    intro rem hrem
    simp only [Bool.and_eq_true, not_and]
    intro _ hbe
    rw [beq_iff_eq] at hbe
    exact absurd hbe (hnotin rem hrem)
  · intro j hj
    rw [(sched_all_rems_spec db [] hU hN).2.1] at hj
    simp only [List.filter_nil, List.nil_append] at hj
    obtain ⟨rem, hrem, hej⟩ := List.mem_filterMap.mp hj
    obtain ⟨hn, hhn, hje⟩ := mem_expectedJob db.habits rem j hej
    have : j.habit_id = rem.2.1 := by rw [hje]
    rw [this]
    exact hnotin rem hrem

/-- Store for the C10 evaluation: the single reminder row's time text
is malformed. -/
def dbW10 : DB := ⟨[2], [⟨1, 2, "run"⟩], [⟨1, 1, 2, "bad-time", "reminder_2_1"⟩], 2⟩

theorem get_all_omits_malformed_witness :
    (∀ e : Rem, e ∈ getAllRemindersDB dbW10 ↔ ∃ r ∈ dbW10.reminders,
      parseTimeStr r.reminder_time = some e.2.2.1
      ∧ e = (r.user_id, r.habit_id, e.2.2.1, r.job_name))
    ∧ (∀ t : PTime, ((2, 1, t, "reminder_2_1") : Rem) ∉ getAllRemindersDB dbW10)
    ∧ (⟨1, 1, 2, "bad-time", "reminder_2_1"⟩ : ReminderRow)
      ∈ (sched_all_rems dbW10 []).db.reminders
    ∧ (∀ j ∈ (sched_all_rems dbW10 []).jq, j.habit_id ≠ 1)
    ∧ (sched_all_rems dbW10 []).n_skip_time = 0 :=
  get_all_omits_malformed dbW10 [] ⟨1, 1, 2, "bad-time", "reminder_2_1"⟩
    (by unfold uniqueHids; decide) (by unfold nocross; decide) (by decide) (by decide)
